import Mathlib

/-!
# libbitcoin-server: subscribe_manager

A shallow embedding of `src/subscribe_manager.cpp` and the properties of the
subscription registry, the request decoder and the expiry sweep.

Conventions of the embedding.

* A byte is a `Fin 256`; a `data_chunk` is a list of bytes.
* `second_clock::universal_time()` is an explicit argument `now` of every
  function that reads the clock; a `ptime` is a number of seconds.
* Calling a `queue_send_callback` on a message is recorded as a `delivery`
  (callback, message) in the list of deliveries the function returns.
* `BITCOIN_ASSERT` is compiled out of release builds: the functions that
  contain assertions return, next to their result, whether every assertion held.
* What the file uses from outside `src/` (the libbitcoin library and the
  headers of the server) is either modelled from the specification, with a
  doc comment saying so, or taken as a parameter in `externals`.
-/

namespace libbitcoin
namespace server

/-! ## Bytes, hashes and time -/

abbrev uint8_t := Fin 256

abbrev data_chunk := List uint8_t

/-- Size in bytes of a short hash (the hash of a payment address). -/
def short_hash_size : Nat := 20

/-- Size in bytes of a hash digest (a block hash). -/
def hash_size : Nat := 32

/-- Largest value of a `uint32_t`. -/
def max_uint32 : Nat := 4294967295

abbrev short_hash := { bytes : data_chunk // bytes.length = short_hash_size }

abbrev hash_digest := { bytes : data_chunk // bytes.length = hash_size }

/-- Absolute time in seconds, as read from `second_clock::universal_time()`. -/
abbrev ptime := Int

/-- Duration of `count` minutes (`posix_time::minutes`), in seconds. -/
def minutes (count : Nat) : Int := 60 * (count : Int)

/-- Value-initialised `data_chunk` of the given size: `data_chunk data(size)`. -/
def data_chunk_of_size (size : Nat) : data_chunk := List.replicate size 0

/-! ## Prefix keys -/

/-- Modelled from the spec: the Prefix Key type `binary_type` of libbitcoin is
declared outside src/; the spec stores it as (bit-length, byte buffer), and
`binary_type.mk bitsize blocks` stands for the constructor call
`AddressPrefix(bitsize, blocks)`. -/
structure binary_type where
  size : Nat
  blocks : data_chunk
deriving DecidableEq, Repr

/-- Modelled from the spec: `binary_type::blocks_size` is declared outside src/;
the spec gives the number of prefix bytes as `ceil(bit-length/8)`. -/
def binary_type.blocks_size (bitsize : Nat) : Nat := (bitsize + 7) / 8

inductive subscribe_type where
  | address
  | stealth
deriving DecidableEq, Repr

/-! ## Error codes -/

/-- The error codes the manager produces; `code.success` is `code()`. -/
inductive code where
  | success
  | bad_stream
  | pool_filled
deriving DecidableEq, Repr

/-- Parts of the libbitcoin library that `subscribe_manager.cpp` uses and
that the repository does not define: the numeric values of the two error
constants and the three overloads of `binary_type::is_prefix_of`. They are
parameters of the embedding. -/
structure externals where
  bad_stream_value : Nat
  pool_filled_value : Nat
  is_prefix_of : binary_type → binary_type → Bool
  is_prefix_of_hash : binary_type → short_hash → Bool
  is_prefix_of_uint32 : binary_type → Nat → Bool

/-- Numeric value of an error code (`ec.value()`); a default-constructed
`code()` has value 0. -/
def code.value (lib : externals) : code → Nat
  | code.success => 0
  | code.bad_stream => lib.bad_stream_value
  | code.pool_filled => lib.pool_filled_value

/-! ## Deserializer -/

/-- Modelled from the spec: the checked deserializer of libbitcoin
(`make_deserializer(begin, end)`) is declared outside src/; it is represented
by the bytes between its iterator and the end of the input. A read that needs
more bytes than remain throws `end_of_stream`, here `none`. -/
structure deserializer where
  remaining : data_chunk
deriving DecidableEq, Repr

def make_deserializer (data : data_chunk) : deserializer := ⟨data⟩

def deserializer.read_byte (deserial : deserializer) : Option (uint8_t × deserializer) :=
  match deserial.remaining with
  | [] => none
  | byte :: rest => some (byte, ⟨rest⟩)

def deserializer.read_data (deserial : deserializer) (n_bytes : Nat) :
    Option (data_chunk × deserializer) :=
  if n_bytes ≤ deserial.remaining.length then
    some (deserial.remaining.take n_bytes, ⟨deserial.remaining.drop n_bytes⟩)
  else
    none

/-- The test `deserial.iterator() == data.end()`. -/
def deserializer.at_end (deserial : deserializer) : Bool := deserial.remaining.isEmpty

/-! ## Serializer -/

/-- Modelled from the spec: the unchecked serializer of libbitcoin
(`make_serializer(data.begin())`) is declared outside src/; it is represented by
the buffer it writes into and its write position. A write overwrites the bytes
at the position and advances it. -/
structure serializer where
  buffer : data_chunk
  position : Nat
deriving DecidableEq, Repr

def make_serializer (data : data_chunk) : serializer := ⟨data, 0⟩

def serializer.write_byte (serial : serializer) (value : uint8_t) : serializer :=
  ⟨serial.buffer.set serial.position value, serial.position + 1⟩

def serializer.write_data (serial : serializer) (data : data_chunk) : serializer :=
  data.foldl serializer.write_byte serial

/-- Byte number `index` of `value`, least significant first. -/
def little_endian_byte (value : Nat) (index : Nat) : uint8_t :=
  ⟨value / 256 ^ index % 256, Nat.mod_lt _ (by decide)⟩

def serializer.write_4_bytes_little_endian (serial : serializer) (value : Nat) : serializer :=
  serial.write_data
    [little_endian_byte value 0, little_endian_byte value 1,
     little_endian_byte value 2, little_endian_byte value 3]

def serializer.write_short_hash (serial : serializer) (hash : short_hash) : serializer :=
  serial.write_data hash.val

def serializer.write_hash (serial : serializer) (hash : hash_digest) : serializer :=
  serial.write_data hash.val

/-- Modelled from the spec: `write_error_code` (service/util.hpp) is not under
src/; the spec encodes a status as a single little-endian 4-byte error code. -/
def write_error_code (lib : externals) (serial : serializer) (ec : code) : serializer :=
  serial.write_4_bytes_little_endian (ec.value lib)

/-! ## Messages -/

/-- Modelled from the spec: `incoming_message` (message.hpp) is not under src/;
a request carries an opaque origin, a payload and the context (command and id)
needed to address a response. -/
structure incoming_message where
  origin : data_chunk
  command : String
  id : Nat
  data : data_chunk
deriving DecidableEq, Repr

/-- Modelled from the spec: `outgoing_message` (message.hpp) is not under src/;
a message is represented by the constructor call that built it:
`outgoing_message(request, data)` for a response and
`outgoing_message(destination, command, data)` for a notification. -/
inductive outgoing_message where
  | response (request : incoming_message) (data : data_chunk)
  | update (destination : data_chunk) (command : String) (data : data_chunk)
deriving DecidableEq, Repr

/-- The payload of an outgoing message. -/
def outgoing_message.data : outgoing_message → data_chunk
  | outgoing_message.response _ data => data
  | outgoing_message.update _ _ data => data

/-- Modelled from the spec: a `queue_send_callback` is a capability owned by the
transport; it is represented by an opaque handle. -/
structure queue_send_callback where
  handle : Nat
deriving DecidableEq, Repr

/-- One call `queue_send(message)`. -/
abbrev delivery := queue_send_callback × outgoing_message

/-! ## Transactions -/

/-- Modelled from the spec: `wallet::payment_address` of libbitcoin. -/
structure payment_address where
  version : uint8_t
  hash : short_hash
deriving DecidableEq

/-- Modelled from the spec: script parsing is an external collaborator; a
script is represented by what the two extractors return on it,
`wallet::payment_address::extract(script)` (none when the address is not valid)
and the stealth extractor (none when it returns false). -/
structure script where
  extract : Option payment_address
  to_stealth_prefix_result : Option Nat
deriving DecidableEq

structure transaction_input where
  script : script
deriving DecidableEq

structure transaction_output where
  script : script
deriving DecidableEq

/-- Modelled from the spec: `chain::transaction` of libbitcoin, with the results
of `tx.serialized_size()` and `tx.to_data()`. -/
structure transaction where
  inputs : List transaction_input
  outputs : List transaction_output
  serialized_size : Nat
  to_data : data_chunk
deriving DecidableEq

/-! ## The manager -/

structure subscription where
  prefix_ : binary_type
  expiry_time : ptime
  client_origin : data_chunk
  queue_send : queue_send_callback
  type : subscribe_type
deriving DecidableEq, Repr

abbrev subscription_list := List subscription

structure subscribe_manager where
  subscription_limit_ : Nat
  subscription_expiration_minutes_ : Nat
  subscriptions_ : subscription_list
deriving DecidableEq, Repr

/-- The manager right after construction: no subscription. -/
def subscribe_manager.create (maximum_subscriptions subscription_expiration_minutes : Nat) :
    subscribe_manager :=
  ⟨maximum_subscriptions, subscription_expiration_minutes, []⟩

def convert_subscribe_type (type_byte : uint8_t) : subscribe_type :=
  if type_byte = 0 then subscribe_type.address else subscribe_type.stealth

/-- The decoder `deserialize_address`: `none` when it returns false, otherwise
the two values it stored in `address` and `type`. -/
def deserialize_address (data : data_chunk) : Option (binary_type × subscribe_type) :=
  let deserial := make_deserializer data
  match deserial.read_byte with
  | none => none
  | some (type_byte, deserial) =>
    let type := convert_subscribe_type type_byte
    match deserial.read_byte with
    | none => none
    | some (bitsize, deserial) =>
      match deserial.read_data (binary_type.blocks_size bitsize.val) with
      | none => none
      | some (blocks, deserial) =>
        let address := binary_type.mk bitsize.val blocks
        if deserial.at_end then some (address, type) else none

def add_subscription (this : subscribe_manager) (request : incoming_message)
    (queue_send : queue_send_callback) (now : ptime) : code × subscribe_manager :=
  match deserialize_address request.data with
  | none => (code.bad_stream, this)
  | some (address_key, type) =>
    if this.subscriptions_.length ≥ this.subscription_limit_ then
      (code.pool_filled, this)
    else
      let expire_time := now + minutes this.subscription_expiration_minutes_
      let new_subscription : subscription :=
        ⟨address_key, expire_time, request.origin, queue_send, type⟩
      (code.success,
        { this with subscriptions_ := this.subscriptions_ ++ [new_subscription] })

def do_subscribe (lib : externals) (this : subscribe_manager) (request : incoming_message)
    (queue_send : queue_send_callback) (now : ptime) : subscribe_manager × List delivery :=
  let (ec, this) := add_subscription this request queue_send now
  let result := data_chunk_of_size 4
  let serial := make_serializer result
  let serial := write_error_code lib serial ec
  let response := outgoing_message.response request serial.buffer
  (this, [(queue_send, response)])

/-- Body of the loop of `do_renew` for one subscription. -/
def renew_subscription (lib : externals) (type : subscribe_type) (origin : data_chunk)
    (filter : binary_type) (expire_time : ptime) (sub : subscription) : subscription :=
  if sub.type ≠ type then sub
  else if sub.client_origin ≠ origin then sub
  else if !lib.is_prefix_of sub.prefix_ filter then sub
  else { sub with expiry_time := expire_time }

def do_renew (lib : externals) (this : subscribe_manager) (request : incoming_message)
    (queue_send : queue_send_callback) (now : ptime) : subscribe_manager × List delivery :=
  match deserialize_address request.data with
  | none => (this, [])
  | some (filter, type) =>
    let expire_time := now + minutes this.subscription_expiration_minutes_
    let this := { this with subscriptions_ :=
      this.subscriptions_.map (renew_subscription lib type request.origin filter expire_time) }
    let result := data_chunk_of_size 4
    let serial := make_serializer result
    let serial := write_error_code lib serial code.success
    let response := outgoing_message.response request serial.buffer
    (this, [(queue_send, response)])

/-- The loop of `sweep_expired`: `it` is the position of the iterator. -/
@[semireducible]
def sweep_loop (now : ptime) (subscriptions : subscription_list) (it : Nat) :
    subscription_list :=
  if h : it < subscriptions.length then
    if (subscriptions.get ⟨it, h⟩).expiry_time < now then
      sweep_loop now (subscriptions.eraseIdx it) it
    else
      sweep_loop now subscriptions (it + 1)
  else
    subscriptions
termination_by subscriptions.length - it
decreasing_by
  all_goals simp_wf
  · rw [List.length_eraseIdx]
    simp [h]
    omega
  · omega

def sweep_expired (this : subscribe_manager) (now : ptime) : subscribe_manager :=
  { this with subscriptions_ := sweep_loop now this.subscriptions_ 0 }

/-- The loop of `post_updates` over the subscriptions: one delivery for each
address subscription whose key is a prefix of the address hash. -/
def post_updates_loop (lib : externals) (address : payment_address) (data : data_chunk) :
    subscription_list → List delivery
  | [] => []
  | sub :: rest =>
    if sub.type ≠ subscribe_type.address then
      post_updates_loop lib address data rest
    else if !lib.is_prefix_of_hash sub.prefix_ address.hash then
      post_updates_loop lib address data rest
    else
      let update := outgoing_message.update sub.client_origin "address.update" data
      (sub.queue_send, update) :: post_updates_loop lib address data rest

/-- The deliveries of `post_updates` and whether its three assertions held. -/
def post_updates (lib : externals) (this : subscribe_manager) (address : payment_address)
    (height : Nat) (block_hash : hash_digest) (tx : transaction) : List delivery × Bool :=
  let assert_height := decide (height ≤ max_uint32)
  let height32 := height % 2 ^ 32
  let info_size := 1 + short_hash_size + 4 + hash_size
  let data := data_chunk_of_size (info_size + tx.serialized_size)
  let serial := make_serializer data
  let serial := serial.write_byte address.version
  let serial := serial.write_short_hash address.hash
  let serial := serial.write_4_bytes_little_endian height32
  let serial := serial.write_hash block_hash
  let assert_info := decide (serial.position = info_size)
  let tx_data := tx.to_data
  let serial := serial.write_data tx_data
  let assert_end := decide (serial.position = data.length)
  (post_updates_loop lib address serial.buffer this.subscriptions_,
    assert_height && assert_info && assert_end)

/-- The loop of `post_stealth_updates` over the subscriptions. -/
def post_stealth_updates_loop (lib : externals) (prefix32 : Nat) (data : data_chunk) :
    subscription_list → List delivery
  | [] => []
  | sub :: rest =>
    if sub.type ≠ subscribe_type.stealth then
      post_stealth_updates_loop lib prefix32 data rest
    else if !lib.is_prefix_of_uint32 sub.prefix_ prefix32 then
      post_stealth_updates_loop lib prefix32 data rest
    else
      let update := outgoing_message.update sub.client_origin "address.stealth_update" data
      (sub.queue_send, update) :: post_stealth_updates_loop lib prefix32 data rest

/-- The deliveries of `post_stealth_updates` and whether its three assertions
held. -/
def post_stealth_updates (lib : externals) (this : subscribe_manager) (prefix32 : Nat)
    (height : Nat) (block_hash : hash_digest) (tx : transaction) : List delivery × Bool :=
  let assert_height := decide (height ≤ max_uint32)
  let height32 := height % 2 ^ 32
  let info_size := 2 * 4 + hash_size
  let data := data_chunk_of_size (info_size + tx.serialized_size)
  let serial := make_serializer data
  let serial := serial.write_4_bytes_little_endian prefix32
  let serial := serial.write_4_bytes_little_endian height32
  let serial := serial.write_hash block_hash
  let assert_info := decide (serial.position = info_size)
  let tx_data := tx.to_data
  let serial := serial.write_data tx_data
  let assert_end := decide (serial.position = data.length)
  (post_stealth_updates_loop lib prefix32 serial.buffer this.subscriptions_,
    assert_height && assert_info && assert_end)

/-- The first loop of `do_submit`, over the inputs of the transaction. -/
def submit_inputs (lib : externals) (this : subscribe_manager) (height : Nat)
    (block_hash : hash_digest) (tx : transaction) :
    List transaction_input → List delivery × Bool
  | [] => ([], true)
  | input :: rest =>
    let here : List delivery × Bool :=
      match input.script.extract with
      | some address => post_updates lib this address height block_hash tx
      | none => ([], true)
    let after := submit_inputs lib this height block_hash tx rest
    (here.1 ++ after.1, here.2 && after.2)

/-- The second loop of `do_submit`, over the outputs of the transaction. -/
def submit_outputs (lib : externals) (this : subscribe_manager) (height : Nat)
    (block_hash : hash_digest) (tx : transaction) :
    List transaction_output → List delivery × Bool
  | [] => ([], true)
  | output :: rest =>
    let here : List delivery × Bool :=
      match output.script.extract with
      | some address => post_updates lib this address height block_hash tx
      | none =>
        match output.script.to_stealth_prefix_result with
        | some prefix32 => post_stealth_updates lib this prefix32 height block_hash tx
        | none => ([], true)
    let after := submit_outputs lib this height block_hash tx rest
    (here.1 ++ after.1, here.2 && after.2)

/-- The manager after `do_submit`, the deliveries it made and whether every
assertion reached held; `now` is the clock reading of the sweep. -/
def do_submit (lib : externals) (this : subscribe_manager) (height : Nat)
    (block_hash : hash_digest) (tx : transaction) (now : ptime) :
    subscribe_manager × List delivery × Bool :=
  let from_inputs := submit_inputs lib this height block_hash tx tx.inputs
  let from_outputs := submit_outputs lib this height block_hash tx tx.outputs
  let this := if height ≠ 0 then sweep_expired this now else this
  (this, from_inputs.1 ++ from_outputs.1, from_inputs.2 && from_outputs.2)

/-! ## Runs of the manager -/

/-- One task executed by the dispatcher, with the clock reading it observes. -/
inductive task where
  | subscribe (request : incoming_message) (queue_send : queue_send_callback) (now : ptime)
  | renew (request : incoming_message) (queue_send : queue_send_callback) (now : ptime)
  | submit (height : Nat) (block_hash : hash_digest) (tx : transaction) (now : ptime)

/-- The manager after one task. -/
def step (lib : externals) (this : subscribe_manager) : task → subscribe_manager
  | task.subscribe request queue_send now => (do_subscribe lib this request queue_send now).1
  | task.renew request queue_send now => (do_renew lib this request queue_send now).1
  | task.submit height block_hash tx now => (do_submit lib this height block_hash tx now).1

/-- The manager after a finite sequence of tasks, executed one after the other. -/
def run (lib : externals) (this : subscribe_manager) (tasks : List task) : subscribe_manager :=
  tasks.foldl (step lib) this

/-! ## Wire layouts in the words of the specification -/

/-- Spec wording of a status response body: a single little-endian 4-byte
error code. -/
def encode_status (value : Nat) : data_chunk :=
  [little_endian_byte value 0, little_endian_byte value 1,
   little_endian_byte value 2, little_endian_byte value 3]

/-- Spec wording of the subscribe and renew payload: the type selector, the
bit-length, then the prefix bytes. -/
def encode_subscribe (selector bitsize : uint8_t) (blocks : data_chunk) : data_chunk :=
  selector :: bitsize :: blocks

/-- Spec wording of an address update payload: the address version, the 20
hash bytes, the height as 4 little-endian bytes, the 32 block-hash bytes, then
the serialized transaction. -/
def encode_address_update (version : uint8_t) (hash : short_hash) (height : Nat)
    (block_hash : hash_digest) (tx_data : data_chunk) : data_chunk :=
  [version] ++ hash.val ++
    [little_endian_byte height 0, little_endian_byte height 1,
     little_endian_byte height 2, little_endian_byte height 3] ++
    block_hash.val ++ tx_data

/-- Spec wording of a stealth update payload: the stealth prefix as 4
little-endian bytes, the height as 4 little-endian bytes, the 32 block-hash
bytes, then the serialized transaction. -/
def encode_stealth_update (prefix32 : Nat) (height : Nat) (block_hash : hash_digest)
    (tx_data : data_chunk) : data_chunk :=
  [little_endian_byte prefix32 0, little_endian_byte prefix32 1,
   little_endian_byte prefix32 2, little_endian_byte prefix32 3] ++
    [little_endian_byte height 0, little_endian_byte height 1,
     little_endian_byte height 2, little_endian_byte height 3] ++
    block_hash.val ++ tx_data

/-- The clock reading a task observes. -/
def task.now : task → ptime
  | task.subscribe _ _ now => now
  | task.renew _ _ now => now
  | task.submit _ _ _ now => now

/-! ## Sample values

Concrete inputs on which the theorems below are evaluated. -/

/-- Bit number `index` of a byte sequence, the most significant bit of each byte
first; false past the end. -/
def bit_at (bytes : data_chunk) (index : Nat) : Bool :=
  match bytes.get? (index / 8) with
  | some byte => decide (byte.val / 2 ^ (7 - index % 8) % 2 = 1)
  | none => false

/-- A sample matching test: the leading `key.size` bits of the field equal the
bits of the key. -/
def leading_bits_equal (key : binary_type) (field : data_chunk) : Bool :=
  (List.range key.size).all (fun index => bit_at key.blocks index == bit_at field index)

/-- Modelled from the spec: `binary_type::is_prefix_of` on a byte field is
declared outside src/ (libbitcoin); by the spec it is true iff the leading
bit-length bits of the field equal the bits of the key, with a mask on the
final partial byte: the whole bytes are compared as they are, and of the partial
byte only the leading bits that remain after the low ones are masked off. -/
def binary_type.is_prefix_of (key : binary_type) (field : data_chunk) : Bool :=
  let whole := key.size / 8
  let excess := key.size % 8
  decide (key.blocks.take whole = field.take whole) &&
    (decide (excess = 0) ||
      decide ((key.blocks.getD whole 0).val / 2 ^ (8 - excess) =
        (field.getD whole 0).val / 2 ^ (8 - excess)))

/-- Sample library parameters: two error values and the sample matching test. -/
def sample_externals : externals where
  bad_stream_value := 13
  pool_filled_value := 39
  is_prefix_of := fun key field => decide (key.size ≤ field.size) && leading_bits_equal key field.blocks
  is_prefix_of_hash := fun key field => leading_bits_equal key field.val
  is_prefix_of_uint32 := fun key field => leading_bits_equal key (encode_status field)

/-- Subscribe request of scenario 1: type address, 8 bits, prefix 0xAB. -/
def sample_request : incoming_message :=
  ⟨[0x4F], "address.subscribe", 7, [0, 8, 0xAB]⟩

/-- Request whose payload is truncated to one byte. -/
def sample_truncated_request : incoming_message :=
  ⟨[0x4F], "address.subscribe", 8, [0]⟩

/-- Subscription from origin 0x4F for the 4-bit address prefix 0xA, expiring at 100. -/
def sample_subscription : subscription :=
  ⟨⟨4, [0xA0]⟩, 100, [0x4F], ⟨1⟩, subscribe_type.address⟩

/-- The same prefix subscribed from another origin. -/
def sample_other_subscription : subscription :=
  ⟨⟨4, [0xA0]⟩, 100, [0x50], ⟨2⟩, subscribe_type.address⟩

/-- Manager with limit 1 that already holds one subscription. -/
def sample_full_manager : subscribe_manager :=
  ⟨1, 10, [sample_subscription]⟩

/-- Manager with limit 10 holding two subscriptions. -/
def sample_manager : subscribe_manager :=
  ⟨10, 10, [sample_subscription, sample_other_subscription]⟩

/-- Transaction with one input and two outputs: the input and the first output
pay the address with hash 0xAB 00 .. 00, the second output carries the stealth
prefix 7. -/
def sample_transaction : transaction :=
  ⟨[⟨⟨some ⟨0, ⟨0xAB :: List.replicate 19 0, rfl⟩⟩, none⟩⟩],
    [⟨⟨some ⟨0, ⟨0xAB :: List.replicate 19 0, rfl⟩⟩, none⟩⟩, ⟨⟨none, some 7⟩⟩],
    3, [1, 2, 3]⟩

/-- Two subscribe requests, a renewal, and a confirmed transaction observed
after the subscriptions have expired, then one more subscribe request. -/
def sample_tasks : List task :=
  [task.subscribe sample_request ⟨5⟩ 1000,
   task.subscribe sample_request ⟨6⟩ 1001,
   task.renew sample_request ⟨5⟩ 1002,
   task.submit 100 ⟨List.replicate 32 0, rfl⟩ sample_transaction 5000,
   task.subscribe sample_request ⟨7⟩ 5001]

/-- Manager whose only subscription, for the 4-bit address prefix 0xA, has
expired long before the clock reading 5000. -/
def sample_expired_manager : subscribe_manager :=
  ⟨10, 10, [sample_subscription]⟩

/-- The all-zero block hash. -/
def sample_block_hash : hash_digest := ⟨List.replicate 32 0, rfl⟩

/-- Address with version 0 and hash 0xAB 00 .. 00. -/
def sample_address : payment_address := ⟨0, ⟨0xAB :: List.replicate 19 0, rfl⟩⟩

/-- Manager holding an address subscription, a stealth subscription for the
3-bit prefix 000 and a stealth subscription for the 3-bit prefix 111. -/
def sample_stealth_manager : subscribe_manager :=
  ⟨10, 10,
    [sample_subscription,
     ⟨⟨3, [0x00]⟩, 7000, [0x09], ⟨9⟩, subscribe_type.stealth⟩,
     ⟨⟨3, [0xE0]⟩, 7000, [0x0A], ⟨10⟩, subscribe_type.stealth⟩]⟩

/-- Subscribe request for an address prefix of 255 bits, held in 32 bytes. -/
def sample_long_request : incoming_message :=
  ⟨[0x4F], "address.subscribe", 9, 0 :: 255 :: List.replicate 32 0xFF⟩

/-- Subscribe request for a stealth prefix of 40 bits, held in 5 bytes. -/
def sample_long_stealth_request : incoming_message :=
  ⟨[0x4F], "address.subscribe", 10, 1 :: 40 :: List.replicate 5 0xFF⟩

/-- Transaction with an input from which nothing can be extracted and three
outputs: one with both an address and a stealth prefix, one with a stealth
prefix only, one with neither. -/
def sample_mixed_transaction : transaction :=
  ⟨[⟨⟨none, some 7⟩⟩],
    [⟨⟨some sample_address, some 7⟩⟩, ⟨⟨none, some 7⟩⟩, ⟨⟨none, none⟩⟩],
    3, [1, 2, 3]⟩

/-! ## Auxiliary lemmas -/

theorem write_error_code_buffer (lib : externals) (ec : code) :
    (write_error_code lib (make_serializer (data_chunk_of_size 4)) ec).buffer =
      encode_status (ec.value lib) := by
  rfl

theorem deserialize_address_eq_some (data : data_chunk) (address : binary_type)
    (type : subscribe_type) :
    deserialize_address data = some (address, type) ↔
      ∃ (type_byte bitsize : uint8_t) (blocks : data_chunk),
        data = type_byte :: bitsize :: blocks ∧
        blocks.length = binary_type.blocks_size bitsize.val ∧
        address = ⟨bitsize.val, blocks⟩ ∧ type = convert_subscribe_type type_byte := by
  constructor
  · intro h
    match data, h with
    | [], h => simp [deserialize_address, make_deserializer, deserializer.read_byte] at h
    | [_], h => simp [deserialize_address, make_deserializer, deserializer.read_byte] at h
    | type_byte :: bitsize :: blocks, h =>
      refine ⟨type_byte, bitsize, blocks, rfl, ?_⟩
      simp only [deserialize_address, make_deserializer, deserializer.read_byte,
        deserializer.read_data, deserializer.at_end] at h
      split at h
      · simp at h
      · rename_i blocks' deserial' heq
        split at heq
        · rename_i hle
          simp only [Option.some.injEq, Prod.mk.injEq] at heq
          obtain ⟨h1, h2⟩ := heq
          subst h1 h2
          split at h
          · rename_i hend
            simp only [List.isEmpty_iff, List.drop_eq_nil_iff] at hend
            simp only [Option.some.injEq, Prod.mk.injEq] at h
            have hlen : blocks.length = binary_type.blocks_size bitsize.val := by omega
            refine ⟨hlen, ?_, h.2.symm⟩
            rw [← h.1, List.take_of_length_le (by omega)]
          · simp at h
        · simp at heq
  · rintro ⟨type_byte, bitsize, blocks, rfl, hlen, rfl, rfl⟩
    simp [deserialize_address, make_deserializer, deserializer.read_byte,
      deserializer.read_data, deserializer.at_end, hlen]

theorem eraseIdx_take_drop (subs : subscription_list) (it : Nat) (h : it < subs.length) :
    (subs.eraseIdx it).take it = subs.take it ∧
      (subs.eraseIdx it).drop it = subs.drop (it + 1) := by
  have hlen : (subs.take it).length = it := by
    rw [List.length_take]; omega
  rw [List.eraseIdx_eq_take_drop_succ]
  constructor
  · rw [List.take_append_of_le_length (by omega), List.take_of_length_le (by omega)]
  · rw [List.drop_append_of_le_length (by omega), List.drop_of_length_le (by omega)]
    simp

theorem sweep_loop_eq (now : ptime) (subscriptions : subscription_list) (it : Nat) :
    sweep_loop now subscriptions it =
      subscriptions.take it ++
        (subscriptions.drop it).filter (fun sub => decide (sub.expiry_time ≥ now)) := by
  induction subscriptions, it using sweep_loop.induct now with
  | case1 subs it h hlt ih =>
    rw [sweep_loop, dif_pos h, if_pos hlt, ih]
    obtain ⟨h1, h2⟩ := eraseIdx_take_drop subs it h
    rw [h1, h2, List.drop_eq_getElem_cons h, List.filter_cons_of_neg]
    simp only [List.get_eq_getElem] at hlt
    simpa using hlt
  | case2 subs it h hge ih =>
    rw [sweep_loop, dif_pos h, if_neg hge, ih]
    simp only [List.get_eq_getElem] at hge
    have htake : subs.take (it + 1) = subs.take it ++ [subs[it]] := by
      rw [List.take_succ, List.getElem?_eq_getElem h]
      rfl
    rw [List.drop_eq_getElem_cons h, List.filter_cons_of_pos (by simpa using hge), htake,
      List.append_assoc]
    rfl
  | case3 subs it h =>
    rw [sweep_loop, dif_neg h]
    rw [List.take_of_length_le (by omega), List.drop_of_length_le (by omega)]
    simp

theorem do_subscribe_eq (lib : externals) (this : subscribe_manager)
    (request : incoming_message) (queue_send : queue_send_callback) (now : ptime) :
    do_subscribe lib this request queue_send now =
      ((add_subscription this request queue_send now).2,
        [(queue_send, outgoing_message.response request
          (encode_status ((add_subscription this request queue_send now).1.value lib)))]) := by
  rfl

theorem sweep_expired_subscriptions (this : subscribe_manager) (now : ptime) :
    (sweep_expired this now).subscriptions_ =
      this.subscriptions_.filter (fun sub => decide (sub.expiry_time ≥ now)) := by
  simp [sweep_expired, sweep_loop_eq]

theorem step_limit (lib : externals) (this : subscribe_manager) (t : task) :
    (step lib this t).subscription_limit_ = this.subscription_limit_ := by
  cases t with
  | subscribe request queue_send now =>
    simp only [step, do_subscribe_eq, add_subscription]
    split
    · rfl
    · split <;> rfl
  | renew request queue_send now =>
    simp only [step, do_renew]
    split <;> rfl
  | submit height block_hash tx now =>
    simp only [step, do_submit]
    split <;> rfl

theorem step_capacity (lib : externals) (this : subscribe_manager) (t : task)
    (h : this.subscriptions_.length ≤ this.subscription_limit_) :
    (step lib this t).subscriptions_.length ≤ this.subscription_limit_ := by
  cases t with
  | subscribe request queue_send now =>
    simp only [step, do_subscribe_eq, add_subscription]
    split
    · exact h
    · split
      · exact h
      · simp only [List.length_append, List.length_singleton]
        omega
  | renew request queue_send now =>
    simp only [step, do_renew]
    split
    · exact h
    · simpa using h
  | submit height block_hash tx now =>
    simp only [step, do_submit]
    split
    · rw [sweep_expired_subscriptions]
      exact le_trans (List.length_filter_le _ _) h
    · exact h

theorem run_capacity (lib : externals) (tasks : List task) (this : subscribe_manager)
    (h : this.subscriptions_.length ≤ this.subscription_limit_) :
    (run lib this tasks).subscriptions_.length ≤ this.subscription_limit_ := by
  induction tasks generalizing this with
  | nil => exact h
  | cons t rest ih =>
    have hstep := step_capacity lib this t h
    rw [← step_limit lib this t] at hstep
    have := ih (step lib this t) hstep
    rw [step_limit] at this
    exact this

theorem ceil_div_eight (n : Nat) : Nat.ceil ((n : ℚ) / 8) = (n + 7) / 8 := by
  apply le_antisymm
  · rw [Nat.ceil_le]
    have h1 : n ≤ 8 * ((n + 7) / 8) := by omega
    have h2 : (n : ℚ) ≤ 8 * (((n + 7) / 8 : ℕ) : ℚ) := by exact_mod_cast h1
    linarith
  · have h1 := Nat.le_ceil ((n : ℚ) / 8)
    have h2 : (n : ℚ) ≤ 8 * (Nat.ceil ((n : ℚ) / 8) : ℚ) := by linarith
    have h3 : n ≤ 8 * Nat.ceil ((n : ℚ) / 8) := by exact_mod_cast h2
    omega

theorem deserialize_address_isSome_iff (data : data_chunk) :
    (deserialize_address data).isSome = true ↔
      ∃ (type_byte bitsize : uint8_t) (blocks : data_chunk),
        data = type_byte :: bitsize :: blocks ∧
        blocks.length = binary_type.blocks_size bitsize.val := by
  rw [Option.isSome_iff_exists]
  constructor
  · rintro ⟨⟨address, type⟩, h⟩
    obtain ⟨type_byte, bitsize, blocks, h1, h2, _⟩ :=
      (deserialize_address_eq_some data address type).mp h
    exact ⟨type_byte, bitsize, blocks, h1, h2⟩
  · rintro ⟨type_byte, bitsize, blocks, h1, h2⟩
    exact ⟨(⟨bitsize.val, blocks⟩, convert_subscribe_type type_byte),
      (deserialize_address_eq_some data _ _).mpr ⟨type_byte, bitsize, blocks, h1, h2, rfl, rfl⟩⟩

theorem deserialize_address_isSome_length (data : data_chunk) :
    (deserialize_address data).isSome = true ↔
      2 ≤ data.length ∧ data.length = 2 + ((data.getD 1 0).val + 7) / 8 := by
  rw [deserialize_address_isSome_iff]
  constructor
  · rintro ⟨type_byte, bitsize, blocks, rfl, h2⟩
    simp only [binary_type.blocks_size] at h2
    simp only [List.length_cons, List.getD_cons_succ, List.getD_cons_zero]
    omega
  · rintro ⟨h1, h2⟩
    match data, h1, h2 with
    | type_byte :: bitsize :: blocks, _, h2 =>
      refine ⟨type_byte, bitsize, blocks, rfl, ?_⟩
      simp only [List.length_cons, List.getD_cons_succ, List.getD_cons_zero] at h2
      simp only [binary_type.blocks_size]
      omega

theorem renew_subscription_eq (lib : externals) (type : subscribe_type) (origin : data_chunk)
    (filter : binary_type) (expire_time : ptime) (sub : subscription) :
    renew_subscription lib type origin filter expire_time sub =
      if sub.type = type ∧ sub.client_origin = origin ∧
          lib.is_prefix_of sub.prefix_ filter = true then
        { prefix_ := sub.prefix_, expiry_time := expire_time,
          client_origin := sub.client_origin, queue_send := sub.queue_send,
          type := sub.type }
      else sub := by
  unfold renew_subscription
  by_cases h1 : sub.type = type
  · by_cases h2 : sub.client_origin = origin
    · cases h3 : lib.is_prefix_of sub.prefix_ filter <;> simp [h1, h2, h3]
    · simp [h1, h2]
  · simp [h1]

theorem do_renew_of_decoded (lib : externals) (this : subscribe_manager)
    (request : incoming_message) (queue_send : queue_send_callback) (now : ptime)
    (filter : binary_type) (type : subscribe_type)
    (hdecode : deserialize_address request.data = some (filter, type)) :
    do_renew lib this request queue_send now =
      (⟨this.subscription_limit_, this.subscription_expiration_minutes_,
          this.subscriptions_.map (renew_subscription lib type request.origin filter
            (now + minutes this.subscription_expiration_minutes_))⟩,
        [(queue_send, outgoing_message.response request (encode_status 0))]) := by
  simp only [do_renew, hdecode]
  rfl

theorem write_data_position (serial : serializer) (data : data_chunk) :
    (serial.write_data data).position = serial.position + data.length := by
  induction data generalizing serial with
  | nil => rfl
  | cons byte rest ih =>
    have hstep : serial.write_data (byte :: rest) = (serial.write_byte byte).write_data rest := rfl
    rw [hstep, ih]
    simp only [serializer.write_byte, List.length_cons]
    omega

theorem write_data_buffer (written rest data : data_chunk) (h : data.length ≤ rest.length) :
    (serializer.write_data ⟨written ++ rest, written.length⟩ data).buffer =
      written ++ data ++ rest.drop data.length := by
  induction data generalizing written rest with
  | nil => simp [serializer.write_data]
  | cons byte data ih =>
    cases rest with
    | nil => simp at h
    | cons first rest =>
      have hstep : serializer.write_data ⟨written ++ first :: rest, written.length⟩
          (byte :: data) =
          serializer.write_data ⟨(written ++ [byte]) ++ rest, (written ++ [byte]).length⟩
            data := by
        show serializer.write_data (serializer.write_byte _ byte) data = _
        simp [serializer.write_byte]
      rw [hstep, ih (written ++ [byte]) rest (by simpa using h)]
      simp

theorem write_data_append (serial : serializer) (first second : data_chunk) :
    (serial.write_data first).write_data second = serial.write_data (first ++ second) := by
  simp [serializer.write_data, List.foldl_append]

theorem write_data_fills (payload : data_chunk) :
    ((make_serializer (data_chunk_of_size payload.length)).write_data payload).buffer =
      payload := by
  have h := write_data_buffer [] (data_chunk_of_size payload.length) payload
    (by simp [data_chunk_of_size])
  simp only [List.nil_append, List.length_nil] at h
  rw [make_serializer, h]
  simp [data_chunk_of_size]

theorem encode_address_update_length (version : uint8_t) (hash : short_hash) (height : Nat)
    (block_hash : hash_digest) (tx_data : data_chunk) :
    (encode_address_update version hash height block_hash tx_data).length =
      57 + tx_data.length := by
  simp only [encode_address_update, List.length_append, List.length_cons, List.length_nil,
    hash.property, block_hash.property, short_hash_size, hash_size]

theorem encode_stealth_update_length (prefix32 height : Nat) (block_hash : hash_digest)
    (tx_data : data_chunk) :
    (encode_stealth_update prefix32 height block_hash tx_data).length =
      40 + tx_data.length := by
  simp only [encode_stealth_update, List.length_append, List.length_cons, List.length_nil,
    block_hash.property, hash_size]

theorem post_updates_flag (lib : externals) (this : subscribe_manager)
    (address : payment_address) (height : Nat) (block_hash : hash_digest) (tx : transaction) :
    (post_updates lib this address height block_hash tx).2 =
      (decide (height ≤ max_uint32) && decide (tx.to_data.length = tx.serialized_size)) := by
  simp only [post_updates, make_serializer, serializer.write_short_hash,
    serializer.write_hash, serializer.write_4_bytes_little_endian, write_data_position,
    serializer.write_byte, address.hash.property, block_hash.property, short_hash_size,
    hash_size, data_chunk_of_size, List.length_replicate, List.length_cons, List.length_nil]
  by_cases hsize : tx.to_data.length = tx.serialized_size
  · simp [hsize]
  · simp only [hsize, decide_False, Bool.and_false, Bool.and_eq_false_imp, decide_eq_false_iff_not]
    intro _
    omega

theorem post_stealth_updates_flag (lib : externals) (this : subscribe_manager)
    (prefix32 : Nat) (height : Nat) (block_hash : hash_digest) (tx : transaction) :
    (post_stealth_updates lib this prefix32 height block_hash tx).2 =
      (decide (height ≤ max_uint32) && decide (tx.to_data.length = tx.serialized_size)) := by
  simp only [post_stealth_updates, make_serializer,
    serializer.write_hash, serializer.write_4_bytes_little_endian, write_data_position,
    block_hash.property,
    hash_size, data_chunk_of_size, List.length_replicate, List.length_cons, List.length_nil]
  by_cases hsize : tx.to_data.length = tx.serialized_size
  · simp [hsize]
  · simp only [hsize, decide_False, Bool.and_false, Bool.and_eq_false_imp, decide_eq_false_iff_not]
    intro _
    omega

theorem post_updates_deliveries (lib : externals) (this : subscribe_manager)
    (address : payment_address) (height : Nat) (block_hash : hash_digest) (tx : transaction)
    (hsize : tx.to_data.length = tx.serialized_size) :
    (post_updates lib this address height block_hash tx).1 =
      post_updates_loop lib address
        (encode_address_update address.version address.hash (height % 2 ^ 32) block_hash
          tx.to_data) this.subscriptions_ := by
  have hwrite : ∀ serial : serializer, ∀ value : uint8_t,
      serial.write_byte value = serial.write_data [value] := fun _ _ => rfl
  have hlen := encode_address_update_length address.version address.hash (height % 2 ^ 32)
    block_hash tx.to_data
  have hfill := write_data_fills (encode_address_update address.version address.hash
    (height % 2 ^ 32) block_hash tx.to_data)
  rw [hlen, hsize] at hfill
  simp only [post_updates, serializer.write_short_hash, serializer.write_hash,
    serializer.write_4_bytes_little_endian, hwrite, write_data_append, short_hash_size,
    hash_size]
  rw [← hfill]
  rfl

theorem post_stealth_updates_deliveries (lib : externals) (this : subscribe_manager)
    (prefix32 : Nat) (height : Nat) (block_hash : hash_digest) (tx : transaction)
    (hsize : tx.to_data.length = tx.serialized_size) :
    (post_stealth_updates lib this prefix32 height block_hash tx).1 =
      post_stealth_updates_loop lib prefix32
        (encode_stealth_update prefix32 (height % 2 ^ 32) block_hash tx.to_data)
        this.subscriptions_ := by
  have hlen := encode_stealth_update_length prefix32 (height % 2 ^ 32) block_hash tx.to_data
  have hfill := write_data_fills (encode_stealth_update prefix32 (height % 2 ^ 32)
    block_hash tx.to_data)
  rw [hlen, hsize] at hfill
  simp only [post_stealth_updates, serializer.write_hash,
    serializer.write_4_bytes_little_endian, write_data_append, hash_size]
  rw [← hfill]
  rfl

theorem post_updates_loop_eq (lib : externals) (address : payment_address)
    (data : data_chunk) (subscriptions : subscription_list) :
    post_updates_loop lib address data subscriptions =
      (subscriptions.filter (fun sub =>
          decide (sub.type = subscribe_type.address) &&
            lib.is_prefix_of_hash sub.prefix_ address.hash)).map
        (fun sub =>
          (sub.queue_send, outgoing_message.update sub.client_origin "address.update" data)) := by
  induction subscriptions with
  | nil => rfl
  | cons sub rest ih =>
    unfold post_updates_loop
    by_cases htype : sub.type = subscribe_type.address
    · cases hmatch : lib.is_prefix_of_hash sub.prefix_ address.hash <;>
        simp [htype, hmatch, ih]
    · simp [htype, ih]

theorem post_stealth_updates_loop_eq (lib : externals) (prefix32 : Nat)
    (data : data_chunk) (subscriptions : subscription_list) :
    post_stealth_updates_loop lib prefix32 data subscriptions =
      (subscriptions.filter (fun sub =>
          decide (sub.type = subscribe_type.stealth) &&
            lib.is_prefix_of_uint32 sub.prefix_ prefix32)).map
        (fun sub =>
          (sub.queue_send,
            outgoing_message.update sub.client_origin "address.stealth_update" data)) := by
  induction subscriptions with
  | nil => rfl
  | cons sub rest ih =>
    unfold post_stealth_updates_loop
    by_cases htype : sub.type = subscribe_type.stealth
    · cases hmatch : lib.is_prefix_of_uint32 sub.prefix_ prefix32 <;>
        simp [htype, hmatch, ih]
    · simp [htype, ih]

theorem step_minutes (lib : externals) (this : subscribe_manager) (t : task) :
    (step lib this t).subscription_expiration_minutes_ =
      this.subscription_expiration_minutes_ := by
  cases t with
  | subscribe request queue_send now =>
    simp only [step, do_subscribe_eq, add_subscription]
    split
    · rfl
    · split <;> rfl
  | renew request queue_send now =>
    simp only [step, do_renew]
    split <;> rfl
  | submit height block_hash tx now =>
    simp only [step, do_submit]
    split <;> rfl

theorem do_subscribe_subscriptions (lib : externals) (this : subscribe_manager)
    (request : incoming_message) (queue_send : queue_send_callback) (now : ptime) :
    (do_subscribe lib this request queue_send now).1.subscriptions_ = this.subscriptions_ ∨
      ∃ (address_key : binary_type) (type : subscribe_type),
        deserialize_address request.data = some (address_key, type) ∧
        (do_subscribe lib this request queue_send now).1.subscriptions_ =
          this.subscriptions_ ++
            [⟨address_key, now + minutes this.subscription_expiration_minutes_,
              request.origin, queue_send, type⟩] := by
  rw [do_subscribe_eq]
  simp only [add_subscription]
  split
  · exact Or.inl rfl
  · rename_i address_key type hdecode
    split
    · exact Or.inl rfl
    · exact Or.inr ⟨address_key, type, hdecode, rfl⟩

theorem do_submit_subscriptions (lib : externals) (this : subscribe_manager) (height : Nat)
    (block_hash : hash_digest) (tx : transaction) (now : ptime) :
    (do_submit lib this height block_hash tx now).1.subscriptions_ =
      if height ≠ 0 then
        this.subscriptions_.filter (fun sub => decide (sub.expiry_time ≥ now))
      else this.subscriptions_ := by
  simp only [do_submit]
  split
  · exact sweep_expired_subscriptions this now
  · rfl

theorem renew_subscription_cases (lib : externals) (type : subscribe_type)
    (origin : data_chunk) (filter : binary_type) (expire_time : ptime) (sub : subscription) :
    renew_subscription lib type origin filter expire_time sub = sub ∨
      renew_subscription lib type origin filter expire_time sub =
        ⟨sub.prefix_, expire_time, sub.client_origin, sub.queue_send, sub.type⟩ := by
  rw [renew_subscription_eq]
  split
  · exact Or.inr rfl
  · exact Or.inl rfl

theorem do_renew_subscriptions (lib : externals) (this : subscribe_manager)
    (request : incoming_message) (queue_send : queue_send_callback) (now : ptime) :
    (do_renew lib this request queue_send now).1.subscriptions_ = this.subscriptions_ ∨
      ∃ (filter : binary_type) (type : subscribe_type),
        deserialize_address request.data = some (filter, type) ∧
        (do_renew lib this request queue_send now).1.subscriptions_ =
          this.subscriptions_.map (renew_subscription lib type request.origin filter
            (now + minutes this.subscription_expiration_minutes_)) := by
  cases hd : deserialize_address request.data with
  | none =>
    left
    simp only [do_renew, hd]
  | some decoded =>
    obtain ⟨filter, type⟩ := decoded
    right
    refine ⟨filter, type, rfl, ?_⟩
    rw [do_renew_of_decoded lib this request queue_send now filter type hd]

theorem step_expiry_bound (lib : externals) (this : subscribe_manager) (t : task)
    (bound : ptime) (hnow : t.now ≤ bound)
    (hold : ∀ sub ∈ this.subscriptions_,
      sub.expiry_time ≤ bound + minutes this.subscription_expiration_minutes_) :
    ∀ sub ∈ (step lib this t).subscriptions_,
      sub.expiry_time ≤ bound + minutes this.subscription_expiration_minutes_ := by
  cases t with
  | subscribe request queue_send now =>
    simp only [task.now] at hnow
    intro sub hin
    simp only [step] at hin
    rcases do_subscribe_subscriptions lib this request queue_send now with h | ⟨_, _, _, h⟩
    · rw [h] at hin
      exact hold sub hin
    · rw [h, List.mem_append, List.mem_singleton] at hin
      rcases hin with hin | rfl
      · exact hold sub hin
      · exact add_le_add_right hnow _
  | renew request queue_send now =>
    simp only [task.now] at hnow
    intro sub hin
    simp only [step] at hin
    rcases do_renew_subscriptions lib this request queue_send now with h | ⟨filter, type, _, h⟩
    · rw [h] at hin
      exact hold sub hin
    · rw [h, List.mem_map] at hin
      obtain ⟨old, hold_in, rfl⟩ := hin
      rcases renew_subscription_cases lib type request.origin filter
        (now + minutes this.subscription_expiration_minutes_) old with hcase | hcase
      · rw [hcase]
        exact hold old hold_in
      · rw [hcase]
        exact add_le_add_right hnow _
  | submit height block_hash tx now =>
    intro sub hin
    simp only [step] at hin
    rw [do_submit_subscriptions] at hin
    split at hin
    · exact hold sub (List.mem_filter.mp hin).1
    · exact hold sub hin

theorem run_expiry_bound (lib : externals) (tasks : List task) (this : subscribe_manager)
    (bound : ptime) (hnow : ∀ t ∈ tasks, t.now ≤ bound)
    (hold : ∀ sub ∈ this.subscriptions_,
      sub.expiry_time ≤ bound + minutes this.subscription_expiration_minutes_) :
    (run lib this tasks).subscription_expiration_minutes_ =
        this.subscription_expiration_minutes_ ∧
      ∀ sub ∈ (run lib this tasks).subscriptions_,
        sub.expiry_time ≤ bound + minutes this.subscription_expiration_minutes_ := by
  induction tasks generalizing this with
  | nil => exact ⟨rfl, hold⟩
  | cons t rest ih =>
    have hstep := step_expiry_bound lib this t bound (hnow t (List.mem_cons_self _ _)) hold
    rw [← step_minutes lib this t] at hstep
    have hrest := ih (step lib this t) (fun u hu => hnow u (List.mem_cons_of_mem _ hu)) hstep
    rw [step_minutes] at hrest
    exact hrest

theorem minutes_nonneg (count : Nat) : 0 ≤ minutes count := by
  unfold minutes
  positivity

theorem submit_inputs_flag (lib : externals) (this : subscribe_manager) (height : Nat)
    (block_hash : hash_digest) (tx : transaction) (inputs : List transaction_input)
    (hheight : height ≤ max_uint32) (hsize : tx.to_data.length = tx.serialized_size) :
    (submit_inputs lib this height block_hash tx inputs).2 = true := by
  induction inputs with
  | nil => rfl
  | cons input rest ih =>
    simp only [submit_inputs, ih, Bool.and_true]
    split
    · rw [post_updates_flag]
      simp [hheight, hsize]
    · rfl

theorem submit_outputs_flag (lib : externals) (this : subscribe_manager) (height : Nat)
    (block_hash : hash_digest) (tx : transaction) (outputs : List transaction_output)
    (hheight : height ≤ max_uint32) (hsize : tx.to_data.length = tx.serialized_size) :
    (submit_outputs lib this height block_hash tx outputs).2 = true := by
  induction outputs with
  | nil => rfl
  | cons output rest ih =>
    simp only [submit_outputs, ih, Bool.and_true]
    split
    · rw [post_updates_flag]
      simp [hheight, hsize]
    · split
      · rw [post_stealth_updates_flag]
        simp [hheight, hsize]
      · rfl

theorem leading_bits_iff (a b : Nat) (ha : a < 256) (hb : b < 256) (r : Nat) (hr : r ≤ 8) :
    a / 2 ^ (8 - r) = b / 2 ^ (8 - r) ↔
      ∀ j, j < r → (a / 2 ^ (7 - j) % 2 = 1 ↔ b / 2 ^ (7 - j) % 2 = 1) := by
  induction r with
  | zero =>
    have h1 : a / 2 ^ (8 - 0) = 0 := Nat.div_eq_of_lt (by simpa using ha)
    have h2 : b / 2 ^ (8 - 0) = 0 := Nat.div_eq_of_lt (by simpa using hb)
    rw [h1, h2]
    simp
  | succ r ih =>
    have hpow : 2 ^ (8 - r) = 2 ^ (7 - r) * 2 := by
      rw [← pow_succ]
      congr 1
      omega
    have hshift : ∀ c : Nat, c / 2 ^ (8 - r) = c / 2 ^ (7 - r) / 2 := by
      intro c
      rw [hpow, Nat.div_div_eq_div_mul]
    have hsub : 8 - (r + 1) = 7 - r := by omega
    have ih' := ih (by omega)
    rw [hshift a, hshift b] at ih'
    rw [hsub]
    constructor
    · intro h j hj
      by_cases hjr : j = r
      · subst hjr
        rw [h]
      · exact ih'.mp (by rw [h]) j (by omega)
    · intro h
      have hhigh := ih'.mpr (fun j hj => h j (by omega))
      have hlow := h r (by omega)
      omega

theorem bit_at_eq (bytes : data_chunk) (k j : Nat) (hj : j < 8) (hk : k < bytes.length) :
    bit_at bytes (8 * k + j) = decide ((bytes.get ⟨k, hk⟩).val / 2 ^ (7 - j) % 2 = 1) := by
  have hdiv : (8 * k + j) / 8 = k := by omega
  have hmod : (8 * k + j) % 8 = j := by omega
  simp only [bit_at, hdiv, hmod, List.get?_eq_getElem?, List.getElem?_eq_getElem hk,
    List.get_eq_getElem]

theorem byte_bits_iff (key field : data_chunk) (k r : Nat) (hr : r ≤ 8)
    (hkey : k < key.length) (hfield : k < field.length) :
    (key.get ⟨k, hkey⟩).val / 2 ^ (8 - r) = (field.get ⟨k, hfield⟩).val / 2 ^ (8 - r) ↔
      ∀ j, j < r → bit_at key (8 * k + j) = bit_at field (8 * k + j) := by
  rw [leading_bits_iff _ _ (key.get ⟨k, hkey⟩).isLt (field.get ⟨k, hfield⟩).isLt r hr]
  constructor
  · intro h j hj
    rw [bit_at_eq key k j (by omega) hkey, bit_at_eq field k j (by omega) hfield,
      decide_eq_decide]
    exact h j hj
  · intro h j hj
    have := h j hj
    rw [bit_at_eq key k j (by omega) hkey, bit_at_eq field k j (by omega) hfield,
      decide_eq_decide] at this
    exact this

/-! ## The claims -/

/-- C1: starting from the empty registry, after any finite sequence of
do_subscribe, do_renew and do_submit tasks, with any payloads, origins, heights,
transactions and clock readings, the number of stored subscriptions is at most
the configured maximum. -/
theorem capacity_invariant (lib : externals)
    (maximum_subscriptions subscription_expiration_minutes : Nat) (tasks : List task) :
    (run lib (subscribe_manager.create maximum_subscriptions subscription_expiration_minutes)
      tasks).subscriptions_.length ≤ maximum_subscriptions := by
  have h := run_capacity lib tasks
    (subscribe_manager.create maximum_subscriptions subscription_expiration_minutes)
    (Nat.zero_le _)
  exact h

theorem capacity_invariant_witness :
    (run sample_externals (subscribe_manager.create 1 10) sample_tasks).subscriptions_.length ≤ 1 ∧
      (run sample_externals (subscribe_manager.create 1 10)
        (sample_tasks.take 2)).subscriptions_ =
        [⟨⟨8, [0xAB]⟩, 1600, [0x4F], ⟨5⟩, subscribe_type.address⟩] ∧
      (run sample_externals (subscribe_manager.create 1 10) sample_tasks).subscriptions_ =
        [⟨⟨8, [0xAB]⟩, 5601, [0x4F], ⟨7⟩, subscribe_type.address⟩] :=
  ⟨capacity_invariant sample_externals 1 10 sample_tasks, by decide, by decide⟩

/-- C2: when the registry holds at least subscription_limit_ entries and the
payload decodes, add_subscription returns pool_filled and leaves the manager
exactly as it was, and do_subscribe makes one delivery, through the callback of
the request, of a response to the request whose body is the 4-byte encoding of
pool_filled. -/
theorem rejection_at_capacity (lib : externals) (this : subscribe_manager)
    (request : incoming_message) (queue_send : queue_send_callback) (now : ptime)
    (hdecode : (deserialize_address request.data).isSome = true)
    (hfull : this.subscriptions_.length ≥ this.subscription_limit_) :
    add_subscription this request queue_send now = (code.pool_filled, this) ∧
      do_subscribe lib this request queue_send now =
        (this, [(queue_send, outgoing_message.response request
          (encode_status (code.pool_filled.value lib)))]) := by
  have hadd : add_subscription this request queue_send now = (code.pool_filled, this) := by
    unfold add_subscription
    split
    · rename_i hnone
      rw [hnone] at hdecode
      simp at hdecode
    · rw [if_pos hfull]
  exact ⟨hadd, by rw [do_subscribe_eq, hadd]⟩

theorem rejection_at_capacity_witness :
    (deserialize_address sample_request.data).isSome = true ∧
      sample_full_manager.subscriptions_.length ≥ sample_full_manager.subscription_limit_ ∧
      add_subscription sample_full_manager sample_request ⟨5⟩ 1000 =
        (code.pool_filled, sample_full_manager) ∧
      do_subscribe sample_externals sample_full_manager sample_request ⟨5⟩ 1000 =
        (sample_full_manager,
          [(⟨5⟩, outgoing_message.response sample_request [39, 0, 0, 0])]) :=
  ⟨by decide, by decide,
    rejection_at_capacity sample_externals sample_full_manager sample_request ⟨5⟩ 1000
      (by decide) (by decide)⟩

/-- C3: when the registry holds fewer than subscription_limit_ entries and the
payload decodes to a key and a kind, add_subscription returns success, whose
value is 0, and the registry becomes the old sequence followed by one new
subscription with that key and kind, the origin of the request, the callback of
the request and expiry now + subscription_expiration_minutes_; the limit and the
expiration period are unchanged, whatever entries the registry already holds. -/
theorem subscribe_appends (lib : externals) (this : subscribe_manager)
    (request : incoming_message) (queue_send : queue_send_callback) (now : ptime)
    (address_key : binary_type) (type : subscribe_type)
    (hdecode : deserialize_address request.data = some (address_key, type))
    (hroom : this.subscriptions_.length < this.subscription_limit_) :
    (add_subscription this request queue_send now).1 = code.success ∧
      code.success.value lib = 0 ∧
      (add_subscription this request queue_send now).2.subscriptions_ =
        this.subscriptions_ ++
          [{ prefix_ := address_key,
             expiry_time := now + minutes this.subscription_expiration_minutes_,
             client_origin := request.origin,
             queue_send := queue_send,
             type := type }] ∧
      (add_subscription this request queue_send now).2.subscription_limit_ =
        this.subscription_limit_ ∧
      (add_subscription this request queue_send now).2.subscription_expiration_minutes_ =
        this.subscription_expiration_minutes_ := by
  have hnot : ¬ this.subscriptions_.length ≥ this.subscription_limit_ := by omega
  have hadd : add_subscription this request queue_send now =
      (code.success, { this with subscriptions_ := this.subscriptions_ ++
        [⟨address_key, now + minutes this.subscription_expiration_minutes_,
          request.origin, queue_send, type⟩] }) := by
    simp only [add_subscription, hdecode, if_neg hnot]
  rw [hadd]
  exact ⟨rfl, rfl, rfl, rfl, rfl⟩

theorem subscribe_appends_witness :
    deserialize_address sample_request.data = some (⟨8, [0xAB]⟩, subscribe_type.address) ∧
      sample_manager.subscriptions_.length < sample_manager.subscription_limit_ ∧
      (add_subscription sample_manager sample_request ⟨5⟩ 1000).1 = code.success ∧
      code.success.value sample_externals = 0 ∧
      (add_subscription sample_manager sample_request ⟨5⟩ 1000).2.subscriptions_ =
        sample_manager.subscriptions_ ++
          [{ prefix_ := ⟨8, [0xAB]⟩,
             expiry_time := 1000 + minutes sample_manager.subscription_expiration_minutes_,
             client_origin := sample_request.origin,
             queue_send := ⟨5⟩,
             type := subscribe_type.address }] ∧
      (add_subscription sample_manager sample_request ⟨5⟩ 1000).2.subscription_limit_ =
        sample_manager.subscription_limit_ ∧
      (add_subscription sample_manager sample_request
          ⟨5⟩ 1000).2.subscription_expiration_minutes_ =
        sample_manager.subscription_expiration_minutes_ :=
  ⟨by decide, by decide,
    subscribe_appends sample_externals sample_manager sample_request ⟨5⟩ 1000
      ⟨8, [0xAB]⟩ subscribe_type.address (by decide) (by decide)⟩

/-- C4: for every registry, also one at capacity, when the payload fails to
decode do_subscribe leaves the manager unchanged and makes exactly one delivery,
through the callback of the request: a response to the request whose body is the
4-byte little-endian encoding of bad_stream. -/
theorem malformed_subscribe (lib : externals) (this : subscribe_manager)
    (request : incoming_message) (queue_send : queue_send_callback) (now : ptime)
    (hbad : deserialize_address request.data = none) :
    do_subscribe lib this request queue_send now =
        (this, [(queue_send, outgoing_message.response request
          (encode_status (code.bad_stream.value lib)))]) ∧
      (encode_status (code.bad_stream.value lib)).length = 4 := by
  have hadd : add_subscription this request queue_send now = (code.bad_stream, this) := by
    simp only [add_subscription, hbad]
  exact ⟨by rw [do_subscribe_eq, hadd], rfl⟩

theorem malformed_subscribe_witness :
    deserialize_address sample_truncated_request.data = none ∧
      do_subscribe sample_externals sample_full_manager sample_truncated_request ⟨5⟩ 1000 =
        (sample_full_manager,
          [(⟨5⟩, outgoing_message.response sample_truncated_request
            (encode_status (code.bad_stream.value sample_externals)))]) ∧
      (encode_status (code.bad_stream.value sample_externals)).length = 4 :=
  ⟨by decide,
    malformed_subscribe sample_externals sample_full_manager sample_truncated_request ⟨5⟩ 1000
      (by decide)⟩

/-- C5: deserialize_address returns true exactly when the input has at least 2
bytes and its length is 2 + ceil(data[1] / 8); it returns false on every input
shorter than that (the empty input, one byte, fewer prefix bytes than declared)
and on every input that is longer (bytes remain after the declared prefix). -/
theorem deserialize_address_exact_length (data : data_chunk) :
    ((deserialize_address data).isSome = true ↔
        2 ≤ data.length ∧
          data.length = 2 + Nat.ceil (((data.getD 1 0).val : ℚ) / 8)) ∧
      (data.length < 2 + Nat.ceil (((data.getD 1 0).val : ℚ) / 8) →
        deserialize_address data = none) ∧
      (data.length > 2 + Nat.ceil (((data.getD 1 0).val : ℚ) / 8) →
        deserialize_address data = none) := by
  rw [ceil_div_eight]
  have hiff := deserialize_address_isSome_length data
  refine ⟨hiff, ?_, ?_⟩
  · intro hshort
    cases hd : deserialize_address data with
    | none => rfl
    | some value =>
      have hsome : (deserialize_address data).isSome = true := by rw [hd]; rfl
      have := hiff.mp hsome
      omega
  · intro hlong
    cases hd : deserialize_address data with
    | none => rfl
    | some value =>
      have hsome : (deserialize_address data).isSome = true := by rw [hd]; rfl
      have := hiff.mp hsome
      omega

theorem deserialize_address_exact_length_witness :
    (([0, 8, 0xAB, 1] : data_chunk).length >
        2 + Nat.ceil (((([0, 8, 0xAB, 1] : data_chunk).getD 1 0).val : ℚ) / 8)) ∧
      deserialize_address [0, 8, 0xAB, 1] = none ∧
      deserialize_address [0] = none ∧
      (deserialize_address [0, 8, 0xAB]).isSome = true :=
  ⟨by rw [ceil_div_eight]; decide,
    (deserialize_address_exact_length [0, 8, 0xAB, 1]).2.2 (by rw [ceil_div_eight]; decide),
    (deserialize_address_exact_length [0]).2.1 (by rw [ceil_div_eight]; decide),
    (deserialize_address_exact_length [0, 8, 0xAB]).1.mpr
      ⟨by decide, by rw [ceil_div_eight]; decide⟩⟩

/-- C6: for every selector byte, bit-length n in 0..255 and ceil(n/8) key bytes,
decoding the payload [selector, n, key bytes] succeeds and returns the key with
bit-length n and those bytes, with kind address when the selector is 0 and
stealth when it is any other byte; in particular an address payload with
bit-length 160 and a 20-byte key decodes to that kind and key. -/
theorem decode_inverts_layout (selector bitsize : uint8_t) (blocks : data_chunk)
    (hlen : blocks.length = Nat.ceil ((bitsize.val : ℚ) / 8)) :
    deserialize_address (encode_subscribe selector bitsize blocks) =
        some (⟨bitsize.val, blocks⟩,
          if selector = 0 then subscribe_type.address else subscribe_type.stealth) ∧
      encode_subscribe selector bitsize blocks = [selector, bitsize] ++ blocks ∧
      ∀ key : short_hash,
        deserialize_address (encode_subscribe 0 160 key.val) =
          some (⟨160, key.val⟩, subscribe_type.address) := by
  rw [ceil_div_eight] at hlen
  refine ⟨?_, rfl, ?_⟩
  · exact (deserialize_address_eq_some _ _ _).mpr ⟨selector, bitsize, blocks, rfl, hlen, rfl, rfl⟩
  · intro key
    refine (deserialize_address_eq_some _ _ _).mpr ⟨0, 160, key.val, rfl, ?_, rfl, rfl⟩
    rw [key.property]
    rfl

theorem decode_inverts_layout_witness :
    (([0xA0] : data_chunk).length = Nat.ceil ((((4 : uint8_t)).val : ℚ) / 8)) ∧
      deserialize_address (encode_subscribe 1 4 [0xA0]) =
        some (⟨4, [0xA0]⟩, subscribe_type.stealth) :=
  ⟨by rw [ceil_div_eight]; decide,
    (decode_inverts_layout 1 4 [0xA0] (by rw [ceil_div_eight]; decide)).1⟩

/-- C7: when the payload of a renew request decodes to a kind and a filter, the
registry after do_renew is the old one, entry by entry in the same order, where
every subscription of that kind, from the origin of the request and whose key
is_prefix_of the filter has expiry now + subscription_expiration_minutes_ and
its other fields unchanged, and every other subscription is unchanged; the
length, the limit and the expiration period are unchanged, and when no
subscription matches the manager is unchanged. -/
theorem renew_updates_matching (lib : externals) (this : subscribe_manager)
    (request : incoming_message) (queue_send : queue_send_callback) (now : ptime)
    (filter : binary_type) (type : subscribe_type)
    (hdecode : deserialize_address request.data = some (filter, type)) :
    (do_renew lib this request queue_send now).1.subscriptions_ =
        this.subscriptions_.map (fun sub =>
          if sub.type = type ∧ sub.client_origin = request.origin ∧
              lib.is_prefix_of sub.prefix_ filter = true then
            { prefix_ := sub.prefix_,
              expiry_time := now + minutes this.subscription_expiration_minutes_,
              client_origin := sub.client_origin,
              queue_send := sub.queue_send,
              type := sub.type }
          else sub) ∧
      (do_renew lib this request queue_send now).1.subscriptions_.length =
        this.subscriptions_.length ∧
      (do_renew lib this request queue_send now).1.subscription_limit_ =
        this.subscription_limit_ ∧
      (do_renew lib this request queue_send now).1.subscription_expiration_minutes_ =
        this.subscription_expiration_minutes_ ∧
      ((∀ sub ∈ this.subscriptions_,
          ¬ (sub.type = type ∧ sub.client_origin = request.origin ∧
              lib.is_prefix_of sub.prefix_ filter = true)) →
        (do_renew lib this request queue_send now).1 = this) := by
  rw [do_renew_of_decoded lib this request queue_send now filter type hdecode]
  have hmap : this.subscriptions_.map (renew_subscription lib type request.origin filter
        (now + minutes this.subscription_expiration_minutes_)) =
      this.subscriptions_.map (fun sub =>
        if sub.type = type ∧ sub.client_origin = request.origin ∧
            lib.is_prefix_of sub.prefix_ filter = true then
          { prefix_ := sub.prefix_,
            expiry_time := now + minutes this.subscription_expiration_minutes_,
            client_origin := sub.client_origin,
            queue_send := sub.queue_send,
            type := sub.type }
        else sub) := by
    apply List.map_congr_left
    intro sub _
    exact renew_subscription_eq lib type request.origin filter _ sub
  refine ⟨hmap, ?_, rfl, rfl, ?_⟩
  · simp
  · intro hnone
    have hid : this.subscriptions_.map (renew_subscription lib type request.origin filter
        (now + minutes this.subscription_expiration_minutes_)) = this.subscriptions_ := by
      rw [hmap]
      conv_rhs => rw [← List.map_id this.subscriptions_]
      apply List.map_congr_left
      intro sub hmem
      rw [if_neg (hnone sub hmem)]
      rfl
    simp only [hid]

theorem renew_updates_matching_witness :
    deserialize_address sample_request.data = some (⟨8, [0xAB]⟩, subscribe_type.address) ∧
      (do_renew sample_externals sample_manager sample_request ⟨5⟩ 1000).1.subscriptions_ =
        [⟨⟨4, [0xA0]⟩, 1600, [0x4F], ⟨1⟩, subscribe_type.address⟩,
          sample_other_subscription] :=
  ⟨by decide,
    (renew_updates_matching sample_externals sample_manager sample_request ⟨5⟩ 1000
      ⟨8, [0xAB]⟩ subscribe_type.address (by decide)).1.trans (by decide)⟩

/-- C8: do_renew responds exactly when the payload decodes: when decoding fails
it makes no delivery and leaves the manager unchanged; when decoding succeeds
it makes exactly one delivery, through the callback of the request, of a
response to the request whose body is the 4 bytes 0 0 0 0 (code 0), whichever
subscriptions the registry holds and however many of them match. -/
theorem renew_response (lib : externals) (this : subscribe_manager)
    (request : incoming_message) (queue_send : queue_send_callback) (now : ptime) :
    (deserialize_address request.data = none →
        do_renew lib this request queue_send now = (this, [])) ∧
      ((deserialize_address request.data).isSome = true →
        (do_renew lib this request queue_send now).2 =
          [(queue_send, outgoing_message.response request [0, 0, 0, 0])]) ∧
      ((do_renew lib this request queue_send now).2 ≠ [] ↔
        (deserialize_address request.data).isSome = true) := by
  cases hd : deserialize_address request.data with
  | none =>
    have hdrop : do_renew lib this request queue_send now = (this, []) := by
      simp only [do_renew, hd]
    refine ⟨fun _ => hdrop, fun h => ?_, ?_⟩
    · simp at h
    · rw [hdrop]
      simp
  | some decoded =>
    obtain ⟨filter, type⟩ := decoded
    rw [do_renew_of_decoded lib this request queue_send now filter type hd]
    refine ⟨fun h => ?_, fun _ => rfl, ?_⟩
    · simp at h
    · simp

theorem renew_response_witness :
    deserialize_address sample_truncated_request.data = none ∧
      do_renew sample_externals sample_manager sample_truncated_request ⟨5⟩ 1000 =
        (sample_manager, []) ∧
      (deserialize_address sample_request.data).isSome = true ∧
      (do_renew sample_externals sample_manager sample_request ⟨5⟩ 1000).2 =
        [(⟨5⟩, outgoing_message.response sample_request [0, 0, 0, 0])] :=
  ⟨by decide,
    (renew_response sample_externals sample_manager sample_truncated_request ⟨5⟩ 1000).1
      (by decide),
    by decide,
    (renew_response sample_externals sample_manager sample_request ⟨5⟩ 1000).2.1
      (by decide)⟩

/-- C9: after sweep_expired at clock reading now, the registry is exactly the
old sequence filtered by expiry_time >= now: the survivors are unchanged and in
their original relative order, an entry whose expiry_time equals now is kept,
an entry is in the result exactly when it was in the registry with
expiry_time >= now, and the limit and the expiration period are unchanged. -/
theorem sweep_is_filter (this : subscribe_manager) (now : ptime) :
    (sweep_expired this now).subscriptions_ =
        this.subscriptions_.filter (fun sub => decide (sub.expiry_time ≥ now)) ∧
      List.Sublist (sweep_expired this now).subscriptions_ this.subscriptions_ ∧
      (∀ sub : subscription, sub ∈ (sweep_expired this now).subscriptions_ ↔
        sub ∈ this.subscriptions_ ∧ sub.expiry_time ≥ now) ∧
      (∀ sub : subscription, sub ∈ this.subscriptions_ → sub.expiry_time = now →
        sub ∈ (sweep_expired this now).subscriptions_) ∧
      (∀ sub : subscription, sub.expiry_time < now →
        sub ∉ (sweep_expired this now).subscriptions_) ∧
      (sweep_expired this now).subscription_limit_ = this.subscription_limit_ ∧
      (sweep_expired this now).subscription_expiration_minutes_ =
        this.subscription_expiration_minutes_ := by
  have hfilter := sweep_expired_subscriptions this now
  have hmem : ∀ sub : subscription, sub ∈ (sweep_expired this now).subscriptions_ ↔
      sub ∈ this.subscriptions_ ∧ sub.expiry_time ≥ now := by
    intro sub
    rw [hfilter, List.mem_filter]
    simp
  refine ⟨hfilter, ?_, hmem, ?_, ?_, rfl, rfl⟩
  · rw [hfilter]
    exact List.filter_sublist _
  · intro sub hin heq
    exact (hmem sub).mpr ⟨hin, ge_of_eq heq⟩
  · intro sub hlt hin
    exact absurd hlt (not_lt.mpr ((hmem sub).mp hin).2)

theorem sweep_is_filter_witness :
    (sweep_expired ⟨10, 10,
        [⟨⟨4, [0xA0]⟩, 99, [0x4F], ⟨1⟩, subscribe_type.address⟩,
          sample_subscription,
          ⟨⟨0, []⟩, 50, [0x51], ⟨3⟩, subscribe_type.stealth⟩,
          ⟨⟨0, []⟩, 101, [0x52], ⟨4⟩, subscribe_type.stealth⟩]⟩ 100).subscriptions_ =
      [sample_subscription, ⟨⟨0, []⟩, 101, [0x52], ⟨4⟩, subscribe_type.stealth⟩] :=
  (sweep_is_filter _ 100).1.trans (by decide)

/-- C10: sweeping twice at the same clock reading gives the same manager as
sweeping once, and sweeping a registry with no entry whose expiry_time < now,
the empty registry included, returns the manager unchanged. -/
theorem sweep_idempotent (this : subscribe_manager) (now : ptime) :
    sweep_expired (sweep_expired this now) now = sweep_expired this now ∧
      ((∀ sub ∈ this.subscriptions_, ¬ sub.expiry_time < now) →
        sweep_expired this now = this) ∧
      (this.subscriptions_ = [] → sweep_expired this now = this) := by
  have hself : ∀ m : subscribe_manager,
      (∀ sub ∈ m.subscriptions_, ¬ sub.expiry_time < now) → sweep_expired m now = m := by
    intro m hall
    have hkeep : (sweep_expired m now).subscriptions_ = m.subscriptions_ := by
      rw [sweep_expired_subscriptions, List.filter_eq_self]
      intro sub hin
      simp only [ge_iff_le, decide_eq_true_eq]
      exact not_lt.mp (hall sub hin)
    cases m
    simp only [sweep_expired] at hkeep ⊢
    rw [hkeep]
  refine ⟨?_, hself this, ?_⟩
  · apply hself
    intro sub hin hlt
    rw [sweep_expired_subscriptions, List.mem_filter] at hin
    have := hin.2
    simp only [ge_iff_le, decide_eq_true_eq] at this
    exact absurd hlt (not_lt.mpr this)
  · intro hempty
    apply hself
    intro sub hin
    rw [hempty] at hin
    simp at hin

theorem sweep_idempotent_witness :
    (∀ sub ∈ sample_manager.subscriptions_, ¬ sub.expiry_time < 100) ∧
      sweep_expired sample_manager 100 = sample_manager ∧
      sweep_expired (sweep_expired sample_manager 101) 101 = sweep_expired sample_manager 101 ∧
      sweep_expired sample_manager 101 = ⟨10, 10, []⟩ :=
  ⟨by decide, (sweep_idempotent sample_manager 100).2.1 (by decide),
    (sweep_idempotent sample_manager 101).1, by decide⟩

/-- C11: do_submit with height = 0 leaves the manager exactly unchanged, entries
whose expiry_time has passed included; do_submit with height != 0 leaves the
manager equal to one sweep_expired pass over the manager before the call; the
deliveries of the call are those of the two loops run on the manager before the
call, and they do not depend on the clock reading of the sweep. -/
theorem sweep_cadence (lib : externals) (this : subscribe_manager) (height : Nat)
    (block_hash : hash_digest) (tx : transaction) (now : ptime) :
    (height = 0 → (do_submit lib this height block_hash tx now).1 = this) ∧
      (height ≠ 0 →
        (do_submit lib this height block_hash tx now).1 = sweep_expired this now) ∧
      (do_submit lib this height block_hash tx now).2.1 =
        (submit_inputs lib this height block_hash tx tx.inputs).1 ++
          (submit_outputs lib this height block_hash tx tx.outputs).1 ∧
      (∀ other : ptime, (do_submit lib this height block_hash tx other).2.1 =
        (do_submit lib this height block_hash tx now).2.1) := by
  refine ⟨?_, ?_, rfl, fun _ => rfl⟩
  · intro hzero
    simp [do_submit, hzero]
  · intro hpos
    simp [do_submit, hpos]

theorem sweep_cadence_witness :
    (do_submit sample_externals sample_expired_manager 0 sample_block_hash
        sample_transaction 5000).1 = sample_expired_manager ∧
      (do_submit sample_externals sample_expired_manager 100 sample_block_hash
        sample_transaction 5000).1 = ⟨10, 10, []⟩ ∧
      ((do_submit sample_externals sample_expired_manager 100 sample_block_hash
        sample_transaction 5000).2.1.map (fun sent => sent.1)) = [⟨1⟩, ⟨1⟩] :=
  ⟨(sweep_cadence sample_externals sample_expired_manager 0 sample_block_hash
      sample_transaction 5000).1 rfl,
    ((sweep_cadence sample_externals sample_expired_manager 100 sample_block_hash
      sample_transaction 5000).2.1 (by decide)).trans (by decide),
    by decide⟩

/-- C12: for every address, height <= 2^32 - 1, block hash, registry and
transaction whose serialization has serialized_size bytes, the deliveries of
post_updates are, in registry order, exactly one "address.update" message for
each subscription of kind address whose key is_prefix_of the address hash,
addressed to the client_origin of that subscription and sent through its own
callback, and nothing for any other subscription; every message carries the same
payload: the version byte, the 20 hash bytes, the height as 4 little-endian
bytes, the 32 block-hash bytes and the serialized transaction, 57 +
serialized_size bytes in total. The function reads subscriptions_ only: the
manager is not among its results. -/
theorem address_update_fan_out (lib : externals) (this : subscribe_manager)
    (address : payment_address) (height : Nat) (block_hash : hash_digest) (tx : transaction)
    (hheight : height ≤ max_uint32) (hsize : tx.to_data.length = tx.serialized_size) :
    (post_updates lib this address height block_hash tx).1 =
        (this.subscriptions_.filter (fun sub =>
            decide (sub.type = subscribe_type.address) &&
              lib.is_prefix_of_hash sub.prefix_ address.hash)).map
          (fun sub =>
            (sub.queue_send, outgoing_message.update sub.client_origin "address.update"
              (encode_address_update address.version address.hash height block_hash
                tx.to_data))) ∧
      encode_address_update address.version address.hash height block_hash tx.to_data =
        address.version :: (address.hash.val ++
          ([little_endian_byte height 0, little_endian_byte height 1,
            little_endian_byte height 2, little_endian_byte height 3] ++
            (block_hash.val ++ tx.to_data))) ∧
      (encode_address_update address.version address.hash height block_hash
        tx.to_data).length = 57 + tx.serialized_size := by
  have hmod : height % 2 ^ 32 = height := by
    apply Nat.mod_eq_of_lt
    simp only [max_uint32] at hheight
    omega
  refine ⟨?_, ?_, ?_⟩
  · rw [post_updates_deliveries lib this address height block_hash tx hsize, hmod,
      post_updates_loop_eq]
  · simp [encode_address_update]
  · rw [encode_address_update_length, hsize]

theorem address_update_fan_out_witness :
    (100 : Nat) ≤ max_uint32 ∧
      sample_transaction.to_data.length = sample_transaction.serialized_size ∧
      (post_updates sample_externals sample_manager sample_address 100 sample_block_hash
        sample_transaction).1 =
        [(⟨1⟩, outgoing_message.update [0x4F] "address.update"
            ([0, 0xAB] ++ List.replicate 19 0 ++ [100, 0, 0, 0] ++ List.replicate 32 0 ++
              [1, 2, 3])),
          (⟨2⟩, outgoing_message.update [0x50] "address.update"
            ([0, 0xAB] ++ List.replicate 19 0 ++ [100, 0, 0, 0] ++ List.replicate 32 0 ++
              [1, 2, 3]))] :=
  ⟨by decide, by decide,
    (address_update_fan_out sample_externals sample_manager sample_address 100
      sample_block_hash sample_transaction (by decide) (by decide)).1.trans (by decide)⟩

/-- C13: for every stealth prefix, height <= 2^32 - 1, block hash, registry and
transaction whose serialization has serialized_size bytes, the deliveries of
post_stealth_updates are, in registry order, exactly one
"address.stealth_update" message for each subscription of kind stealth whose key
is_prefix_of the stealth prefix, addressed to its client_origin and sent through
its own callback, and nothing for any address subscription or non-matching
subscription; every message carries the same payload: the prefix as 4
little-endian bytes, the height as 4 little-endian bytes, the 32 block-hash
bytes and the serialized transaction, 40 + serialized_size bytes in total. The
function reads subscriptions_ only: the manager is not among its results. -/
theorem stealth_update_fan_out (lib : externals) (this : subscribe_manager)
    (prefix32 : Nat) (height : Nat) (block_hash : hash_digest) (tx : transaction)
    (hheight : height ≤ max_uint32) (hsize : tx.to_data.length = tx.serialized_size) :
    (post_stealth_updates lib this prefix32 height block_hash tx).1 =
        (this.subscriptions_.filter (fun sub =>
            decide (sub.type = subscribe_type.stealth) &&
              lib.is_prefix_of_uint32 sub.prefix_ prefix32)).map
          (fun sub =>
            (sub.queue_send,
              outgoing_message.update sub.client_origin "address.stealth_update"
                (encode_stealth_update prefix32 height block_hash tx.to_data))) ∧
      encode_stealth_update prefix32 height block_hash tx.to_data =
        [little_endian_byte prefix32 0, little_endian_byte prefix32 1,
          little_endian_byte prefix32 2, little_endian_byte prefix32 3] ++
          ([little_endian_byte height 0, little_endian_byte height 1,
            little_endian_byte height 2, little_endian_byte height 3] ++
            (block_hash.val ++ tx.to_data)) ∧
      (encode_stealth_update prefix32 height block_hash tx.to_data).length =
        40 + tx.serialized_size := by
  have hmod : height % 2 ^ 32 = height := by
    apply Nat.mod_eq_of_lt
    simp only [max_uint32] at hheight
    omega
  refine ⟨?_, ?_, ?_⟩
  · rw [post_stealth_updates_deliveries lib this prefix32 height block_hash tx hsize, hmod,
      post_stealth_updates_loop_eq]
  · simp [encode_stealth_update]
  · rw [encode_stealth_update_length, hsize]

theorem stealth_update_fan_out_witness :
    (0 : Nat) ≤ max_uint32 ∧
      sample_transaction.to_data.length = sample_transaction.serialized_size ∧
      (post_stealth_updates sample_externals sample_stealth_manager 7 0 sample_block_hash
        sample_transaction).1 =
        [(⟨9⟩, outgoing_message.update [0x09] "address.stealth_update"
            ([7, 0, 0, 0] ++ [0, 0, 0, 0] ++ List.replicate 32 0 ++ [1, 2, 3]))] :=
  ⟨by decide, by decide,
    (stealth_update_fan_out sample_externals sample_stealth_manager 7 0
      sample_block_hash sample_transaction (by decide) (by decide)).1.trans (by decide)⟩

/-- C14: in every run from the empty registry with a fixed expiration period
and non-decreasing clock readings, a do_renew step never shortens an expiry:
entry by entry, the expiry_time after do_renew is >= the expiry_time before, and
the other fields are unchanged. A subscription is created with expiry now +
subscription_expiration_minutes_, and no other operation changes a stored entry:
do_subscribe keeps the old sequence as a prefix of the new one, do_submit and the
sweep only remove entries. -/
theorem expiry_only_extended (lib : externals)
    (maximum_subscriptions subscription_expiration_minutes : Nat) (tasks : List task)
    (request : incoming_message) (queue_send : queue_send_callback) (now : ptime)
    (hclock : List.Pairwise (fun earlier later : ptime => earlier ≤ later)
      (tasks.map task.now ++ [now])) :
    List.Forall₂
        (fun old new : subscription =>
          old.expiry_time ≤ new.expiry_time ∧ new.prefix_ = old.prefix_ ∧
            new.client_origin = old.client_origin ∧ new.queue_send = old.queue_send ∧
            new.type = old.type)
        (run lib (subscribe_manager.create maximum_subscriptions
          subscription_expiration_minutes) tasks).subscriptions_
        (do_renew lib (run lib (subscribe_manager.create maximum_subscriptions
          subscription_expiration_minutes) tasks) request queue_send now).1.subscriptions_ ∧
      (∀ (this : subscribe_manager) (request : incoming_message)
          (queue_send : queue_send_callback) (now : ptime) (sub : subscription),
        (do_subscribe lib this request queue_send now).1.subscriptions_ =
            this.subscriptions_ ++ [sub] →
          sub.expiry_time = now + minutes this.subscription_expiration_minutes_) ∧
      (∀ (this : subscribe_manager) (request : incoming_message)
          (queue_send : queue_send_callback) (now : ptime),
        List.IsPrefix this.subscriptions_
          (do_subscribe lib this request queue_send now).1.subscriptions_) ∧
      (∀ (this : subscribe_manager) (height : Nat) (block_hash : hash_digest)
          (tx : transaction) (now : ptime),
        List.Sublist (do_submit lib this height block_hash tx now).1.subscriptions_
          this.subscriptions_) ∧
      (∀ (this : subscribe_manager) (now : ptime),
        List.Sublist (sweep_expired this now).subscriptions_ this.subscriptions_) := by
  have hbefore : ∀ t ∈ tasks, t.now ≤ now := by
    intro t ht
    rw [List.pairwise_append] at hclock
    exact hclock.2.2 t.now (List.mem_map_of_mem _ ht) now (List.mem_singleton_self _)
  obtain ⟨hminutes, hbound⟩ := run_expiry_bound lib tasks
    (subscribe_manager.create maximum_subscriptions subscription_expiration_minutes) now
    hbefore (by intro sub hin; simp [subscribe_manager.create] at hin)
  refine ⟨?_, ?_, ?_, ?_, ?_⟩
  · rcases do_renew_subscriptions lib (run lib (subscribe_manager.create
      maximum_subscriptions subscription_expiration_minutes) tasks) request queue_send now
      with h | ⟨filter, type, _, h⟩
    · rw [h, List.forall₂_same]
      intro sub _
      exact ⟨le_refl _, rfl, rfl, rfl, rfl⟩
    · rw [h, List.forall₂_map_right_iff, List.forall₂_same]
      intro sub hin
      rcases renew_subscription_cases lib type request.origin filter
        (now + minutes (run lib (subscribe_manager.create maximum_subscriptions
          subscription_expiration_minutes) tasks).subscription_expiration_minutes_) sub
        with hcase | hcase
      · rw [hcase]
        exact ⟨le_refl _, rfl, rfl, rfl, rfl⟩
      · rw [hcase, hminutes]
        exact ⟨hbound sub hin, rfl, rfl, rfl, rfl⟩
  · intro this request queue_send now sub hadded
    rcases do_subscribe_subscriptions lib this request queue_send now with h | ⟨_, _, _, h⟩
    · rw [h] at hadded
      have hlen := congrArg List.length hadded
      simp at hlen
    · rw [h] at hadded
      have hsub := List.append_cancel_left hadded
      simp only [List.cons.injEq, and_true] at hsub
      rw [← hsub]
  · intro this request queue_send now
    rcases do_subscribe_subscriptions lib this request queue_send now with h | ⟨_, _, _, h⟩
    · rw [h]
    · rw [h]
      exact List.prefix_append _ _
  · intro this height block_hash tx now
    rw [do_submit_subscriptions]
    split
    · exact List.filter_sublist _
    · exact List.Sublist.refl _
  · intro this now
    rw [sweep_expired_subscriptions]
    exact List.filter_sublist _

theorem expiry_only_extended_witness :
    List.Pairwise (fun earlier later : ptime => earlier ≤ later)
        ((sample_tasks.take 2).map task.now ++ [1002]) ∧
      (run sample_externals (subscribe_manager.create 10 10)
        (sample_tasks.take 2)).subscriptions_.map (fun sub => sub.expiry_time) =
        [1600, 1601] ∧
      (do_renew sample_externals (run sample_externals (subscribe_manager.create 10 10)
        (sample_tasks.take 2)) sample_request ⟨5⟩ 1002).1.subscriptions_.map
          (fun sub => sub.expiry_time) = [1602, 1602] ∧
      List.Forall₂
        (fun old new : subscription =>
          old.expiry_time ≤ new.expiry_time ∧ new.prefix_ = old.prefix_ ∧
            new.client_origin = old.client_origin ∧ new.queue_send = old.queue_send ∧
            new.type = old.type)
        (run sample_externals (subscribe_manager.create 10 10)
          (sample_tasks.take 2)).subscriptions_
        (do_renew sample_externals (run sample_externals (subscribe_manager.create 10 10)
          (sample_tasks.take 2)) sample_request ⟨5⟩ 1002).1.subscriptions_ :=
  ⟨by decide, by decide, by decide,
    (expiry_only_extended sample_externals 10 10 (sample_tasks.take 2) sample_request ⟨5⟩
      1002 (by decide)).1⟩

/-- C15, as stated, fails: a subscribe request places an address subscription
whose prefix has 255 bits, more than 160, and a stealth subscription whose
prefix has 40 bits, more than 32. -/
theorem stored_prefix_length_counterexample :
    (add_subscription (subscribe_manager.create 10 10) sample_long_request ⟨5⟩ 1000) =
        (code.success,
          ⟨10, 10, [⟨⟨255, List.replicate 32 0xFF⟩, 1600, [0x4F], ⟨5⟩,
            subscribe_type.address⟩]⟩) ∧
      ¬ (255 ≤ 160) ∧
      (add_subscription (subscribe_manager.create 10 10) sample_long_stealth_request
          ⟨5⟩ 1000) =
        (code.success,
          ⟨10, 10, [⟨⟨40, List.replicate 5 0xFF⟩, 1600, [0x4F], ⟨5⟩,
            subscribe_type.stealth⟩]⟩) ∧
      ¬ (40 ≤ 32) := by
  decide

/-- C15, amended: every subscription that add_subscription places in the
registry has as bit-length the length byte of the payload, at most 255 whatever
its kind, and its key holds exactly ceil(bit-length / 8) bytes. -/
theorem stored_prefix_length (this : subscribe_manager) (request : incoming_message)
    (queue_send : queue_send_callback) (now : ptime) (sub : subscription)
    (hadded : (add_subscription this request queue_send now).2.subscriptions_ =
      this.subscriptions_ ++ [sub]) :
    sub.prefix_.size = (request.data.getD 1 0).val ∧
      sub.prefix_.size ≤ 255 ∧
      sub.prefix_.blocks.length = Nat.ceil ((sub.prefix_.size : ℚ) / 8) := by
  have hcases : (add_subscription this request queue_send now).2.subscriptions_ =
        this.subscriptions_ ∨
      ∃ (address_key : binary_type) (type : subscribe_type),
        deserialize_address request.data = some (address_key, type) ∧
        (add_subscription this request queue_send now).2.subscriptions_ =
          this.subscriptions_ ++
            [⟨address_key, now + minutes this.subscription_expiration_minutes_,
              request.origin, queue_send, type⟩] := by
    simp only [add_subscription]
    split
    · exact Or.inl rfl
    · rename_i address_key type hdecode
      split
      · exact Or.inl rfl
      · exact Or.inr ⟨address_key, type, hdecode, rfl⟩
  rcases hcases with h | ⟨address_key, type, hdecode, h⟩
  · rw [h] at hadded
    have hlen := congrArg List.length hadded
    simp at hlen
  · rw [h] at hadded
    have hsub := List.append_cancel_left hadded
    simp only [List.cons.injEq, and_true] at hsub
    obtain ⟨type_byte, bitsize, blocks, hdata, hblocks, hkey, _⟩ :=
      (deserialize_address_eq_some _ _ _).mp hdecode
    rw [← hsub, ceil_div_eight]
    simp only [hkey, hdata, List.getD_cons_succ, List.getD_cons_zero]
    refine ⟨trivial, ?_, hblocks⟩
    have := bitsize.isLt
    omega

theorem stored_prefix_length_witness :
    (add_subscription (subscribe_manager.create 10 10) sample_long_request
        ⟨5⟩ 1000).2.subscriptions_ =
        (subscribe_manager.create 10 10).subscriptions_ ++
          [⟨⟨255, List.replicate 32 0xFF⟩, 1600, [0x4F], ⟨5⟩, subscribe_type.address⟩] ∧
      (255 : Nat) = (sample_long_request.data.getD 1 0).val ∧
      (255 : Nat) ≤ 255 ∧
      (List.replicate 32 (0xFF : uint8_t)).length = Nat.ceil (((255 : Nat) : ℚ) / 8) :=
  ⟨by decide,
    stored_prefix_length (subscribe_manager.create 10 10) sample_long_request ⟨5⟩ 1000
      ⟨⟨255, List.replicate 32 0xFF⟩, 1600, [0x4F], ⟨5⟩, subscribe_type.address⟩
      (by decide)⟩

/-- C16, as stated, fails: a stored subscription with expiry_time 100 is
expired at the clock reading 5000, and a do_renew at that clock reading from
its origin, with its kind and a filter it is a prefix of, gives it the
expiry_time 5600, which is >= 5000: it is active again. -/
theorem expired_becomes_active_counterexample :
    sample_expired_manager.subscriptions_ = [sample_subscription] ∧
      sample_subscription.expiry_time < 5000 ∧
      (do_renew sample_externals sample_expired_manager sample_request
          ⟨5⟩ 5000).1.subscriptions_ =
        [⟨⟨4, [0xA0]⟩, 5600, [0x4F], ⟨1⟩, subscribe_type.address⟩] ∧
      (5600 : ptime) ≥ 5000 := by
  decide

/-- C16, amended: do_subscribe and do_submit never change a stored subscription:
do_subscribe keeps the old sequence as a prefix of the new one and removes
nothing, and do_submit removes entries only through its sweep, when height != 0,
exactly those with expiry_time < now. do_renew removes nothing; entry by entry
it either leaves the subscription unchanged or rewrites its expiry_time to now +
subscription_expiration_minutes_, which is >= now, and it does so for every
stored subscription of the kind, origin and filter of the request, expired or
not. -/
theorem expired_entry_transitions (lib : externals) (this : subscribe_manager)
    (now : ptime) :
    (∀ (request : incoming_message) (queue_send : queue_send_callback),
        List.IsPrefix this.subscriptions_
          (do_subscribe lib this request queue_send now).1.subscriptions_) ∧
      (∀ (height : Nat) (block_hash : hash_digest) (tx : transaction),
        (do_submit lib this height block_hash tx now).1.subscriptions_ =
          if height ≠ 0 then
            this.subscriptions_.filter (fun sub => decide (sub.expiry_time ≥ now))
          else this.subscriptions_) ∧
      (∀ (request : incoming_message) (queue_send : queue_send_callback),
        List.Forall₂
          (fun old new : subscription =>
            new = old ∨
              (new = ⟨old.prefix_, now + minutes this.subscription_expiration_minutes_,
                  old.client_origin, old.queue_send, old.type⟩ ∧
                new.expiry_time ≥ now))
          this.subscriptions_
          (do_renew lib this request queue_send now).1.subscriptions_) ∧
      (∀ (request : incoming_message) (queue_send : queue_send_callback)
          (filter : binary_type) (type : subscribe_type),
        deserialize_address request.data = some (filter, type) →
        (do_renew lib this request queue_send now).1.subscriptions_ =
          this.subscriptions_.map (fun sub =>
            if sub.type = type ∧ sub.client_origin = request.origin ∧
                lib.is_prefix_of sub.prefix_ filter = true then
              { prefix_ := sub.prefix_,
                expiry_time := now + minutes this.subscription_expiration_minutes_,
                client_origin := sub.client_origin,
                queue_send := sub.queue_send,
                type := sub.type }
            else sub)) := by
  refine ⟨?_, ?_, ?_, ?_⟩
  · intro request queue_send
    rcases do_subscribe_subscriptions lib this request queue_send now with h | ⟨_, _, _, h⟩
    · rw [h]
    · rw [h]
      exact List.prefix_append _ _
  · intro height block_hash tx
    exact do_submit_subscriptions lib this height block_hash tx now
  · intro request queue_send
    rcases do_renew_subscriptions lib this request queue_send now with h | ⟨filter, type, _, h⟩
    · rw [h, List.forall₂_same]
      intro sub _
      exact Or.inl rfl
    · rw [h, List.forall₂_map_right_iff, List.forall₂_same]
      intro sub _
      rcases renew_subscription_cases lib type request.origin filter
        (now + minutes this.subscription_expiration_minutes_) sub with hcase | hcase
      · exact Or.inl hcase
      · refine Or.inr ⟨hcase, ?_⟩
        rw [hcase]
        exact le_add_of_nonneg_right (minutes_nonneg _)
  · intro request queue_send filter type hdecode
    rw [do_renew_of_decoded lib this request queue_send now filter type hdecode]
    apply List.map_congr_left
    intro sub _
    exact renew_subscription_eq lib type request.origin filter _ sub

theorem expired_entry_transitions_witness :
    deserialize_address sample_request.data = some (⟨8, [0xAB]⟩, subscribe_type.address) ∧
      (do_renew sample_externals sample_manager sample_request ⟨5⟩ 5000).1.subscriptions_ =
        [⟨⟨4, [0xA0]⟩, 5600, [0x4F], ⟨1⟩, subscribe_type.address⟩,
          sample_other_subscription] ∧
      (do_submit sample_externals sample_manager 0 sample_block_hash sample_transaction
        5000).1.subscriptions_ = sample_manager.subscriptions_ ∧
      (do_submit sample_externals sample_manager 100 sample_block_hash sample_transaction
        5000).1.subscriptions_ = [] :=
  ⟨by decide,
    ((expired_entry_transitions sample_externals sample_manager 5000).2.2.2 sample_request
      ⟨5⟩ ⟨8, [0xAB]⟩ subscribe_type.address (by decide)).trans (by decide),
    ((expired_entry_transitions sample_externals sample_manager 5000).2.1 0
      sample_block_hash sample_transaction).trans (by decide),
    ((expired_entry_transitions sample_externals sample_manager 5000).2.1 100
      sample_block_hash sample_transaction).trans (by decide)⟩

/-- C17, as stated, fails: the height 4294967296 = 2^32 is a size_t, and do_submit
at that height on a transaction with an extractable address reaches the
assertion height <= max_uint32 of post_updates, which does not hold; the same
happens in post_stealth_updates. -/
theorem assertion_fails_counterexample :
    (4294967296 : Nat) < 2 ^ 64 ∧
      (do_submit sample_externals sample_manager 4294967296 sample_block_hash
        sample_transaction 5000).2.2 = false ∧
      (post_updates sample_externals sample_manager sample_address 4294967296
        sample_block_hash sample_transaction).2 = false ∧
      (post_stealth_updates sample_externals sample_manager 7 4294967296
        sample_block_hash sample_transaction).2 = false := by
  decide

/-- C17, amended: for every registry, payload, block hash, every height <=
2^32 - 1 and every transaction whose serialization has serialized_size bytes,
every assertion reached from do_submit holds, in post_updates and in
post_stealth_updates for every address and stealth prefix; do_subscribe always
completes with exactly one response and do_renew with one response or none. -/
theorem assertions_hold (lib : externals) (this : subscribe_manager) (height : Nat)
    (block_hash : hash_digest) (tx : transaction) (now : ptime)
    (hheight : height ≤ max_uint32) (hsize : tx.to_data.length = tx.serialized_size) :
    (do_submit lib this height block_hash tx now).2.2 = true ∧
      (∀ address : payment_address,
        (post_updates lib this address height block_hash tx).2 = true) ∧
      (∀ prefix32 : Nat,
        (post_stealth_updates lib this prefix32 height block_hash tx).2 = true) ∧
      (∀ (request : incoming_message) (queue_send : queue_send_callback),
        (do_subscribe lib this request queue_send now).2.length = 1) ∧
      (∀ (request : incoming_message) (queue_send : queue_send_callback),
        (do_renew lib this request queue_send now).2.length ≤ 1) := by
  refine ⟨?_, ?_, ?_, ?_, ?_⟩
  · simp only [do_submit, submit_inputs_flag lib this height block_hash tx tx.inputs hheight
      hsize, submit_outputs_flag lib this height block_hash tx tx.outputs hheight hsize,
      Bool.and_self]
  · intro address
    rw [post_updates_flag]
    simp [hheight, hsize]
  · intro prefix32
    rw [post_stealth_updates_flag]
    simp [hheight, hsize]
  · intro request queue_send
    rw [do_subscribe_eq]
    rfl
  · intro request queue_send
    cases hd : deserialize_address request.data with
    | none => simp [do_renew, hd]
    | some decoded =>
      rw [do_renew_of_decoded lib this request queue_send now decoded.1 decoded.2 hd]
      simp

theorem assertions_hold_witness :
    (4294967295 : Nat) ≤ max_uint32 ∧
      sample_transaction.to_data.length = sample_transaction.serialized_size ∧
      (do_submit sample_externals sample_manager 4294967295 sample_block_hash
        sample_transaction 5000).2.2 = true :=
  ⟨by decide, by decide,
    (assertions_hold sample_externals sample_manager 4294967295 sample_block_hash
      sample_transaction 5000 (by decide) (by decide)).1⟩

/-- C20: the deliveries of do_submit are, input after input and then output
after output, those of post_updates when an address is extracted from the
script; for an output without address, those of post_stealth_updates when a
stealth prefix is extracted; and none when nothing is extracted (for an input,
when no address is extracted). post_updates sends only "address.update"
messages and post_stealth_updates only "address.stealth_update" messages, so no
output triggers both kinds. -/
theorem output_triggers_one_kind (lib : externals) (this : subscribe_manager)
    (height : Nat) (block_hash : hash_digest) (tx : transaction) (now : ptime) :
    (do_submit lib this height block_hash tx now).2.1 =
        (tx.inputs.map (fun input =>
            match input.script.extract with
            | some address => (post_updates lib this address height block_hash tx).1
            | none => [])).flatten ++
          (tx.outputs.map (fun output =>
            match output.script.extract, output.script.to_stealth_prefix_result with
            | some address, _ => (post_updates lib this address height block_hash tx).1
            | none, some prefix32 =>
              (post_stealth_updates lib this prefix32 height block_hash tx).1
            | none, none => [])).flatten ∧
      (∀ (address : payment_address) (sent : delivery),
        sent ∈ (post_updates lib this address height block_hash tx).1 →
          ∃ (destination data : data_chunk),
            sent.2 = outgoing_message.update destination "address.update" data) ∧
      (∀ (prefix32 : Nat) (sent : delivery),
        sent ∈ (post_stealth_updates lib this prefix32 height block_hash tx).1 →
          ∃ (destination data : data_chunk),
            sent.2 = outgoing_message.update destination "address.stealth_update" data) := by
  have hinputs : ∀ inputs : List transaction_input,
      (submit_inputs lib this height block_hash tx inputs).1 =
        (inputs.map (fun input =>
          match input.script.extract with
          | some address => (post_updates lib this address height block_hash tx).1
          | none => [])).flatten := by
    intro inputs
    induction inputs with
    | nil => rfl
    | cons input rest ih =>
      simp only [submit_inputs, ih, List.map_cons, List.flatten_cons]
      congr 1
      split <;> rfl
  have houtputs : ∀ outputs : List transaction_output,
      (submit_outputs lib this height block_hash tx outputs).1 =
        (outputs.map (fun output =>
          match output.script.extract, output.script.to_stealth_prefix_result with
          | some address, _ => (post_updates lib this address height block_hash tx).1
          | none, some prefix32 =>
            (post_stealth_updates lib this prefix32 height block_hash tx).1
          | none, none => [])).flatten := by
    intro outputs
    induction outputs with
    | nil => rfl
    | cons output rest ih =>
      simp only [submit_outputs, ih, List.map_cons, List.flatten_cons]
      congr 1
      cases output.script.extract with
      | some address => rfl
      | none =>
        cases output.script.to_stealth_prefix_result with
        | some prefix32 => rfl
        | none => rfl
  refine ⟨?_, ?_, ?_⟩
  · simp only [do_submit, hinputs, houtputs]
  · intro address sent hin
    simp only [post_updates, post_updates_loop_eq, List.mem_map] at hin
    obtain ⟨sub, _, rfl⟩ := hin
    exact ⟨_, _, rfl⟩
  · intro prefix32 sent hin
    simp only [post_stealth_updates, post_stealth_updates_loop_eq, List.mem_map] at hin
    obtain ⟨sub, _, rfl⟩ := hin
    exact ⟨_, _, rfl⟩

theorem output_triggers_one_kind_witness :
    (do_submit sample_externals sample_stealth_manager 0 sample_block_hash
        sample_mixed_transaction 5000).2.1 =
      [(⟨1⟩, outgoing_message.update [0x4F] "address.update"
          ([0, 0xAB] ++ List.replicate 19 0 ++ [0, 0, 0, 0] ++ List.replicate 32 0 ++
            [1, 2, 3])),
        (⟨9⟩, outgoing_message.update [0x09] "address.stealth_update"
          ([7, 0, 0, 0] ++ [0, 0, 0, 0] ++ List.replicate 32 0 ++ [1, 2, 3]))] :=
  (output_triggers_one_kind sample_externals sample_stealth_manager 0 sample_block_hash
    sample_mixed_transaction 5000).1.trans (by decide)

/-- C18: for every key of bit-length n <= 160 holding ceil(n / 8) bytes and every
20-byte hash x, the modelled match test is_prefix_of is true exactly when the
first n bits of x equal the n bits of the key, bit by bit; the bits after the
first n are not looked at, and a key of bit-length 0 matches every x. -/
theorem prefix_matching_reference (key : binary_type) (x : short_hash)
    (hsize : key.size ≤ 160)
    (hblocks : key.blocks.length = Nat.ceil ((key.size : ℚ) / 8)) :
    (key.is_prefix_of x.val = true ↔
        ∀ index, index < key.size → bit_at key.blocks index = bit_at x.val index) ∧
      (key.size = 0 → key.is_prefix_of x.val = true) := by
  have hx : x.val.length = 20 := x.property
  rw [ceil_div_eight] at hblocks
  have hmain : key.is_prefix_of x.val = true ↔
      ∀ index, index < key.size → bit_at key.blocks index = bit_at x.val index := by
    simp only [binary_type.is_prefix_of, Bool.and_eq_true, Bool.or_eq_true,
      decide_eq_true_eq]
    constructor
    · rintro ⟨htake, htop⟩ index hindex
      have hk : index / 8 < key.blocks.length := by omega
      have hf : index / 8 < x.val.length := by omega
      have hsplit : index = 8 * (index / 8) + index % 8 := by omega
      have hmod : index % 8 < 8 := Nat.mod_lt _ (by decide)
      by_cases hlt : index / 8 < key.size / 8
      · have hbyte : key.blocks.get ⟨index / 8, hk⟩ = x.val.get ⟨index / 8, hf⟩ := by
          have h1 : (key.blocks.take (key.size / 8))[index / 8]? =
              (x.val.take (key.size / 8))[index / 8]? := by rw [htake]
          rw [List.getElem?_take_of_lt hlt, List.getElem?_take_of_lt hlt,
            List.getElem?_eq_getElem hk, List.getElem?_eq_getElem hf] at h1
          simpa using h1
        rw [hsplit, bit_at_eq _ _ _ hmod hk, bit_at_eq _ _ _ hmod hf, hbyte]
      · have hkw : index / 8 = key.size / 8 := by omega
        have hr : index % 8 < key.size % 8 := by omega
        rcases htop with h0 | htop
        · omega
        · rw [← hkw, List.getD_eq_getElem _ _ hk, List.getD_eq_getElem _ _ hf] at htop
          have hbits := (byte_bits_iff key.blocks x.val (index / 8) (key.size % 8)
            (by omega) hk hf).mp htop (index % 8) hr
          rw [← hsplit] at hbits
          exact hbits
    · intro hbits
      constructor
      · apply List.ext_getElem?
        intro k
        by_cases hlt : k < key.size / 8
        · have hk : k < key.blocks.length := by omega
          have hf : k < x.val.length := by omega
          rw [List.getElem?_take_of_lt hlt, List.getElem?_take_of_lt hlt,
            List.getElem?_eq_getElem hk, List.getElem?_eq_getElem hf]
          have hbyte := (byte_bits_iff key.blocks x.val k 8 (le_refl _) hk hf).mpr
            (fun j hj => hbits (8 * k + j) (by omega))
          simp only [Nat.sub_self, pow_zero, Nat.div_one, List.get_eq_getElem] at hbyte
          rw [Fin.ext hbyte]
        · rw [List.getElem?_take_eq_none (by omega), List.getElem?_take_eq_none (by omega)]
      · by_cases h0 : key.size % 8 = 0
        · exact Or.inl h0
        · right
          have hk : key.size / 8 < key.blocks.length := by omega
          have hf : key.size / 8 < x.val.length := by omega
          rw [List.getD_eq_getElem _ _ hk, List.getD_eq_getElem _ _ hf]
          exact (byte_bits_iff key.blocks x.val (key.size / 8) (key.size % 8)
            (by omega) hk hf).mpr (fun j hj => hbits (8 * (key.size / 8) + j) (by omega))
  refine ⟨hmain, ?_⟩
  intro hzero
  rw [hmain]
  intro index hindex
  omega

theorem prefix_matching_reference_witness :
    (4 : Nat) ≤ 160 ∧
      ([0xA0] : data_chunk).length = Nat.ceil (((4 : Nat) : ℚ) / 8) ∧
      binary_type.is_prefix_of ⟨4, [0xA0]⟩ sample_address.hash.val = true ∧
      binary_type.is_prefix_of ⟨4, [0xAF]⟩ sample_address.hash.val = true ∧
      binary_type.is_prefix_of ⟨4, [0xB0]⟩ sample_address.hash.val = false ∧
      binary_type.is_prefix_of ⟨0, []⟩ sample_address.hash.val = true :=
  ⟨by decide, by rw [ceil_div_eight]; decide,
    (prefix_matching_reference ⟨4, [0xA0]⟩ sample_address.hash (by decide)
      (by rw [ceil_div_eight]; decide)).1.mpr (by decide),
    by decide, by decide,
    (prefix_matching_reference ⟨0, []⟩ sample_address.hash (by decide)
      (by rw [ceil_div_eight]; decide)).2 rfl⟩

end server
end libbitcoin
